import Mathlib

/-!
Verification of the object-graph cloning and mock-substitution engine of
`mockable_doctests` (file `mockable.py`).

The embedding models a fragment of Python 2 semantics that the library
manipulates: a heap of objects addressed by numeric identities, mutable
dictionaries, classes with attribute dictionaries, functions carrying a
reference to a globals dictionary, bound/unbound methods, classmethod /
staticmethod / property wrapper objects, and instances of the `Mock`
sentinel class.  Object identity is heap index; mutation is heap update;
a raised exception is an error result that keeps the heap reached so far
(Python does not roll back side effects on `raise`); the interpreter's
recursion limit is a fuel parameter whose exhaustion is an uncatchable
error, mirroring Python's `RuntimeError: maximum recursion depth`.
-/

namespace MDoc

/-- Object identity: index into the heap. -/
abbrev Oid := Nat

/-- Tags for built-in (non-user-defined) Python types, as returned by
`type(x)` for values that are not instances of user classes. -/
inductive BK where
  | intT | strT | listT | dictT | funcT | methT | cmT | smT | propT | typeT | mockIT
  deriving DecidableEq, Repr

/-- The second argument of `isinstance`/`type` contexts: either a user class
(a heap object) or a built-in type. -/
inductive TyRef where
  | ofCls (c : Oid)
  | builtin (k : BK)
  deriving DecidableEq, Repr

/-- Function bodies.  The library never inspects code objects, so a tiny
code language suffices to observe behaviour: return a constant, return a
global variable, or return an attribute of a global variable. -/
inductive Code where
  | retConst (n : Int)
  | retGlobal (x : String)
  | retGlobalAttr (x a : String)
  deriving DecidableEq, Repr

/-- Heap objects.  `func` carries its code, a reference to its globals
dictionary (`func_globals`), default-argument values (`func_defaults`),
`func_name`, `__doc__` and `__dict__`.  `cls` records whether `Mock` is
among its ancestors (`mockDerived`), its base classes and its `__dict__`.
`mockInst` is an instance of `Mock` or of a `Mock`-derived class,
carrying its instance `__dict__`. -/
inductive Obj where
  | int (n : Int)
  | str (s : String)
  | list (elems : List Oid)
  | dict (entries : List (String × Oid))
  | func (code : Code) (globs : Oid) (defaults : List Oid) (name : String)
      (doc : Option String) (attrs : List (String × Oid))
  | cls (name : String) (mockDerived : Bool) (bases : List Oid)
      (dict : List (String × Oid))
  | method (imFunc : Oid) (imSelf : Option Oid) (imCls : Option TyRef)
  | classmethodObj (f : Oid)
  | staticmethodObj (f : Oid)
  | propertyObj (fget fset fdel : Option Oid) (doc : Option String)
  | mockInst (attrs : List (String × Oid))
  deriving DecidableEq, Repr

/-- The heap: object with identity `i` is `σ[i]?`. -/
abbrev St := List Obj

/-- Python exception kinds relevant to the library.  `recurErr` stands for
the interpreter's recursion-limit `RuntimeError`; it is not among the
kinds caught by `copy_class`'s `except (AttributeError, KeyError,
TypeError)` clause. -/
inductive PyErr where
  | attrErr | keyErr | typeErr | recurErr
  deriving DecidableEq, Repr

/-- Exceptions caught by the attribute loop of `copy_class`. -/
def catchable : PyErr → Bool
  | .attrErr => true
  | .keyErr => true
  | .typeErr => true
  | .recurErr => false

/-- Result of a stateful computation: Python keeps all heap effects
performed before an exception was raised. -/
inductive Res (α : Type) where
  | ok (a : α) (σ : St)
  | err (e : PyErr) (σ : St)
  deriving DecidableEq, Repr

/-- The heap reached by a computation, whether it returned or raised. -/
def Res.st : Res α → St
  | .ok _ σ => σ
  | .err _ σ => σ

/-- Read the object at an identity. -/
def readO (σ : St) (o : Oid) : Option Obj := σ[o]?

/-- Allocate a fresh object, returning its identity. -/
def alloc (σ : St) (ob : Obj) : Oid × St := (σ.length, σ ++ [ob])

/-- Overwrite the object at an existing identity. -/
def writeO (σ : St) (o : Oid) (ob : Obj) : St := σ.set o ob

/-- Association-list lookup (Python dict lookup). -/
def lookupL {β : Type} : List (String × β) → String → Option β
  | [], _ => none
  | (k', v) :: r, k => if k' = k then some v else lookupL r k

/-- Association-list store: replace in place, else append
(Python `d[k] = v`). -/
def dictSetL {β : Type} : List (String × β) → String → β → List (String × β)
  | [], k, v => [(k, v)]
  | (k', v') :: r, k, v =>
    if k' = k then (k, v) :: r else (k', v') :: dictSetL r k v

/-- Python `base.update(upd)` on association lists. -/
def dictUpdateL {β : Type} (base upd : List (String × β)) : List (String × β) :=
  upd.foldl (fun acc kv => dictSetL acc kv.1 kv.2) base

/-- Byte-lexicographic ordering on character lists (Python 2 string
comparison). -/
def chLe : List Char → List Char → Bool
  | [], _ => true
  | _ :: _, [] => false
  | a :: as, b :: bs =>
    if a.toNat < b.toNat then true
    else if b.toNat < a.toNat then false
    else chLe as bs

/-- Python string `<=`. -/
def strLeB (a b : String) : Bool := chLe a.data b.data

/-- `sorted(...)` on strings: Python's stable ascending sort. -/
def sortStrings (l : List String) : List String :=
  l.insertionSort (fun a b => strLeB a b = true)

/-- Prefix test on character lists. -/
def chPrefix : List Char → List Char → Bool
  | [], _ => true
  | _ :: _, [] => false
  | a :: as, b :: bs => a = b && chPrefix as bs

/-- Python `s.endswith(post)`. -/
def endsWithB (s post : String) : Bool :=
  chPrefix post.data.reverse s.data.reverse

/-- Helper for `s.split(".")`: walk the characters, accumulating the
current (reversed) segment. -/
def splitDotsAux : List Char → List Char → List String
  | [], acc => [String.mk acc.reverse]
  | c :: cs, acc =>
    if c = '.' then String.mk acc.reverse :: splitDotsAux cs []
    else splitDotsAux cs (c :: acc)

/-- Python `s.split(".")`. -/
def splitDots (s : String) : List String := splitDotsAux s.data []

/-- Whether an object is a Sentinel Marker in the sense of `copy_value`
line 334: an instance of `Mock`, or a class with `Mock` among its
ancestors (`issubclass(original, Mock) if isinstance(original, type) else
isinstance(original, Mock)`). -/
def sentObj : Obj → Bool
  | .mockInst _ => true
  | .cls _ md _ _ => md
  | _ => false

/-- `type(x)` for the values `apply_mocks` and `copy_name` hand to
`copy_callable` as the `clas` argument.  For every object kind the
library ever passes on (functions, methods, plain values, classes) the
Python type is a built-in type; for `mockInst` the stand-in tag is never
inspected because `copy_callable` returns mock instances unchanged. -/
def tyRefOfVal : Obj → TyRef
  | .int _ => .builtin .intT
  | .str _ => .builtin .strT
  | .list _ => .builtin .listT
  | .dict _ => .builtin .dictT
  | .func .. => .builtin .funcT
  | .cls .. => .builtin .typeT
  | .method .. => .builtin .methT
  | .classmethodObj _ => .builtin .cmT
  | .staticmethodObj _ => .builtin .smT
  | .propertyObj .. => .builtin .propT
  | .mockInst _ => .builtin .mockIT

/-- Depth-first attribute search through a class and its bases
(Python 2 attribute resolution; fuel bounds the walk, which terminates
in CPython because base-class graphs are acyclic). -/
def clsLookupAux (σ : St) : Nat → List Oid → String → Option Oid
  | _, [], _ => none
  | 0, _ :: _, _ => none
  | fuel + 1, c :: rest, name =>
    match readO σ c with
    | some (.cls _ _ bases d) =>
      match lookupL d name with
      | some v => some v
      | none => clsLookupAux σ fuel (bases ++ rest) name
    | _ => clsLookupAux σ fuel rest name

/-- `getattr(x, name, <absent>)`: returns `none` where Python's `getattr`
would raise `AttributeError` (callers supply their own default).  On
classes the descriptor protocol applies: a plain function in the class
dictionary is wrapped as an unbound method, a `classmethod` as a method
bound to the class, a `staticmethod` yields the bare function, and a
`property` accessed on the class yields the property object itself.
Wrapping allocates, so the heap is threaded. -/
def getAttrM (x : Option Oid) (name : String) (σ : St) : Option Oid × St :=
  match x with
  | none => (none, σ)
  | some o =>
    match readO σ o with
    | some (.cls ..) =>
      match clsLookupAux σ (σ.length + 1) [o] name with
      | some v =>
        match readO σ v with
        | some (.func ..) =>
          let (m, σ') := alloc σ (.method v none (some (.ofCls o)))
          (some m, σ')
        | some (.classmethodObj f) =>
          let (m, σ') := alloc σ (.method f (some o) (some (.builtin .typeT)))
          (some m, σ')
        | some (.staticmethodObj f) => (some f, σ)
        | _ => (some v, σ)
      | none => (none, σ)
    | some (.mockInst attrs) => (lookupL attrs name, σ)
    | some (.func _ _ _ _ _ fattrs) => (lookupL fattrs name, σ)
    | _ => (none, σ)

/-- `setattr(o, name, v)`.  Classes, mock instances and functions accept
attribute assignment; ints, strings, lists, dicts, methods and the
wrapper objects raise `AttributeError`. -/
def setAttrM (o : Oid) (name : String) (v : Oid) (σ : St) : Res Unit :=
  match readO σ o with
  | some (.cls nm md bs d) => .ok () (writeO σ o (.cls nm md bs (dictSetL d name v)))
  | some (.mockInst attrs) => .ok () (writeO σ o (.mockInst (dictSetL attrs name v)))
  | some (.func code g defs nm doc fattrs) =>
    .ok () (writeO σ o (.func code g defs nm doc (dictSetL fattrs name v)))
  | _ => .err .attrErr σ

/-- `d.get(k)` on a dictionary object (a `TypeError` if `d` is not a
dictionary). -/
def dictGetR (d : Oid) (k : String) (σ : St) : Res (Option Oid) :=
  match readO σ d with
  | some (.dict es) => .ok (lookupL es k) σ
  | _ => .err .typeErr σ

/-- `d[k] = v` on a dictionary object. -/
def dictSetR (d : Oid) (k : String) (v : Oid) (σ : St) : Res Unit :=
  match readO σ d with
  | some (.dict es) => .ok () (writeO σ d (.dict (dictSetL es k v)))
  | _ => .err .typeErr σ

/-! ### The Object Cloner (`mockable.py` lines 42–343) -/

/-- Shape of a `deepcopy` work item: a single object, the elements of a
list, or the values of an association list. -/
inductive DcA where
  | one (o : Oid)
  | many (es : List Oid)
  | pairs (ps : List (String × Oid))
  deriving DecidableEq, Repr

/-- Engine of `copy.deepcopy`, structurally recursive on fuel (fuel is
consumed at every recursive step, standing for the interpreter's
recursion limit).  Numbers, strings, functions and classes are atomic
(the same object is returned); lists, dicts and instances are rebuilt
recursively; methods and the classmethod / staticmethod / property
wrappers are unpicklable in Python 2, so deep-copying them raises
`TypeError`. -/
def dcRun : Nat → DcA → St → Res DcA
  | 0, _, σ => .err .recurErr σ
  | fuel + 1, .one o, σ =>
    match readO σ o with
    | some (.int _) => .ok (.one o) σ
    | some (.str _) => .ok (.one o) σ
    | some (.func ..) => .ok (.one o) σ
    | some (.cls ..) => .ok (.one o) σ
    | some (.list es) =>
      match dcRun fuel (.many es) σ with
      | .ok (.many es') σ' =>
        let (r, σ'') := alloc σ' (.list es')
        .ok (.one r) σ''
      | .ok _ σ' => .err .typeErr σ'
      | .err e σ' => .err e σ'
    | some (.dict es) =>
      match dcRun fuel (.pairs es) σ with
      | .ok (.pairs es') σ' =>
        let (r, σ'') := alloc σ' (.dict es')
        .ok (.one r) σ''
      | .ok _ σ' => .err .typeErr σ'
      | .err e σ' => .err e σ'
    | some (.mockInst attrs) =>
      match dcRun fuel (.pairs attrs) σ with
      | .ok (.pairs as') σ' =>
        let (r, σ'') := alloc σ' (.mockInst as')
        .ok (.one r) σ''
      | .ok _ σ' => .err .typeErr σ'
      | .err e σ' => .err e σ'
    | some (.method ..) => .err .typeErr σ
    | some (.classmethodObj _) => .err .typeErr σ
    | some (.staticmethodObj _) => .err .typeErr σ
    | some (.propertyObj ..) => .err .typeErr σ
    | none => .err .typeErr σ
  | _ + 1, .many [], σ => .ok (.many []) σ
  | fuel + 1, .many (e :: r), σ =>
    match dcRun fuel (.one e) σ with
    | .ok (.one e') σ' =>
      match dcRun fuel (.many r) σ' with
      | .ok (.many r') σ'' => .ok (.many (e' :: r')) σ''
      | .ok _ σ'' => .err .typeErr σ''
      | .err er σ'' => .err er σ''
    | .ok _ σ' => .err .typeErr σ'
    | .err er σ' => .err er σ'
  | _ + 1, .pairs [], σ => .ok (.pairs []) σ
  | fuel + 1, .pairs ((k, v) :: r), σ =>
    match dcRun fuel (.one v) σ with
    | .ok (.one v') σ' =>
      match dcRun fuel (.pairs r) σ' with
      | .ok (.pairs r') σ'' => .ok (.pairs ((k, v') :: r')) σ''
      | .ok _ σ'' => .err .typeErr σ''
      | .err er σ'' => .err er σ''
    | .ok _ σ' => .err .typeErr σ'
    | .err er σ' => .err er σ'

/-- `copy.deepcopy` as used by `copy_miscellanious` (line 198). -/
def deepCopy (fuel : Nat) (o : Oid) (σ : St) : Res Oid :=
  match dcRun fuel (.one o) σ with
  | .ok (.one r) σ' => .ok r σ'
  | .ok _ σ' => .err .typeErr σ'
  | .err e σ' => .err e σ'

/-- `copy_function` (lines 145–174): build a fresh globals dictionary as
`{}` updated with `f.func_globals` then with `new_globals or {}`; create
a new function sharing the code, name, defaults (and closure) of `f`;
register the new function under its own name in its own globals
(`g.func_globals[g.func_name] = g`); finally
`functools.update_wrapper(g, f)` carries over `__name__`, `__doc__` and
`__dict__` from `f`. -/
def copyFunction (f : Oid) (ng : Option Oid) (σ : St) : Res Oid :=
  match readO σ f with
  | some (.func code gRef defs nm doc fattrs) =>
    match readO σ gRef with
    | some (.dict ge) =>
      let neRes : Res (List (String × Oid)) :=
        match ng with
        | none => .ok [] σ
        | some nd =>
          match readO σ nd with
          | some (.dict ne) => .ok ne σ
          | _ => .err .typeErr σ
      match neRes with
      | .ok ne _ =>
        let merged := dictUpdateL (dictUpdateL [] ge) ne
        let (gd, σ1) := alloc σ (.dict merged)
        let (g, σ2) := alloc σ1 (.func code gd defs nm none [])
        let σ3 := writeO σ2 gd (.dict (dictSetL merged nm g))
        let σ4 := writeO σ3 g (.func code gd defs nm doc (dictUpdateL [] fattrs))
        .ok g σ4
      | .err e σ' => .err e σ'
    | _ => .err .typeErr σ
  | _ => .err .typeErr σ

/-- `copy_classmethod` (lines 126–142): rebuild the underlying function
of the class-bound method and wrap it as a new `classmethod`. -/
def copyClassmethod (m : Oid) (ng : Oid) (σ : St) : Res Oid :=
  match readO σ m with
  | some (.method imF _ _) =>
    match copyFunction imF (some ng) σ with
    | .ok f' σ' =>
      let (r, σ'') := alloc σ' (.classmethodObj f')
      .ok r σ''
    | .err e σ' => .err e σ'
  | _ => .err .typeErr σ

/-- `copy_method` (lines 177–191): rebuild the underlying function and
re-wrap it as `types.MethodType(f', None, clas)`. -/
def copyMethod (m : Oid) (clas : Option TyRef) (ng : Oid) (σ : St) : Res Oid :=
  match readO σ m with
  | some (.method imF _ _) =>
    match copyFunction imF (some ng) σ with
    | .ok f' σ' =>
      let (r, σ'') := alloc σ' (.method f' none clas)
      .ok r σ''
    | .err e σ' => .err e σ'
  | _ => .err .typeErr σ

/-- `copy_staticmethod` (lines 260–276): rebuild the function and wrap it
as a new `staticmethod`. -/
def copyStaticmethod (f : Oid) (ng : Oid) (σ : St) : Res Oid :=
  match copyFunction f (some ng) σ with
  | .ok f' σ' =>
    let (r, σ'') := alloc σ' (.staticmethodObj f')
    .ok r σ''
  | .err e σ' => .err e σ'

/-- `copy_property` (lines 237–257): rebuild each present slot with
`copy_function`, keep absent slots absent, preserve the doc string. -/
def copyProperty (p : Oid) (ng : Oid) (σ : St) : Res Oid :=
  match readO σ p with
  | some (.propertyObj fg fs fd doc) =>
    let step : Option Oid → St → Res (Option Oid) := fun sl σ =>
      match sl with
      | none => .ok none σ
      | some f =>
        match copyFunction f (some ng) σ with
        | .ok f' σ' => .ok (some f') σ'
        | .err e σ' => .err e σ'
    match step fg σ with
    | .ok fg' σ1 =>
      match step fs σ1 with
      | .ok fs' σ2 =>
        match step fd σ2 with
        | .ok fd' σ3 =>
          let (r, σ4) := alloc σ3 (.propertyObj fg' fs' fd' doc)
          .ok r σ4
        | .err e σ3 => .err e σ3
      | .err e σ2 => .err e σ2
    | .err e σ1 => .err e σ1
  | _ => .err .typeErr σ

/-- `copy_callable` (lines 42–91): methods with a truthy `im_self` are
class methods; methods with `im_self = None` are instance methods; a
plain function whose name resolves on `clas` to a plain function is a
static method (accessing an instance method on a class yields a method
wrapper, not a function, so only staticmethod attributes look like
functions there); any other function is copied as a plain function;
everything else is returned unchanged. -/
def copyCallable (name : String) (orig : Oid) (ng : Oid) (clas : Option TyRef)
    (σ : St) : Res Oid :=
  match readO σ orig with
  | some (.method _ imS _) =>
    if imS.isSome then copyClassmethod orig ng σ else copyMethod orig clas ng σ
  | some (.func ..) =>
    match clas with
    | some (.ofCls c) =>
      let (a?, σ1) := getAttrM (some c) name σ
      match a? with
      | some a =>
        match readO σ1 a with
        | some (.func ..) => copyStaticmethod orig ng σ1
        | _ => copyFunction orig (some ng) σ1
      | none => copyFunction orig (some ng) σ1
    | _ => copyFunction orig (some ng) σ
  | some _ => .ok orig σ
  | none => .err .typeErr σ

/-- Work items of the mutually recursive cloner core: dispatch one value
(`copy_value`), clone a class (`copy_class`), run the attribute loop of
`copy_class`, or perform one iteration of that loop. -/
inductive CvIn where
  | value (name : String) (orig : Oid) (clas : Option TyRef)
  | klass (c : Oid)
  | attrs (c' : Oid) (names : List String)
  | astep (c' : Oid) (n : String)
  deriving DecidableEq, Repr

/-- Engine of the mutually recursive pair `copy_value` / `copy_class`
(lines 94–123 and 279–343), structurally recursive on fuel, which is
consumed at every recursive step and stands for the interpreter's
recursion limit.  `ng` is the `new_globals` dictionary threaded through
the whole recursion.  Work items whose Python counterpart returns `None`
yield the dummy identity 0.

`.value`: Sentinel Markers pass through unchanged; classes go to the
class cloner; functions and methods to `copy_callable`; properties to
`copy_property`; everything else is the opaque case, which deep-copies
`new_globals[name]` (a `KeyError` if `name` is unbound there).

`.klass`: a class already deriving from `Mock` is returned unchanged;
otherwise a new class is built with `Mock` prepended to the bases and a
shallow copy of the dictionary, registered in `new_globals` under the
class name, and every attribute is re-cloned in sorted order.

`.attrs`: the loop of lines 117–122; a `KeyError`, `AttributeError` or
`TypeError` raised while cloning one attribute is swallowed and the loop
continues; any other exception propagates.

`.astep`: one loop iteration, `setattr(copy_clas, name,
copy_value(name, getattr(copy_clas, name), new_globals, copy_clas))`. -/
def cvRun (ng : Oid) : Nat → CvIn → St → Res Oid
  | 0, _, σ => .err .recurErr σ
  | fuel + 1, .value name orig clas, σ =>
    match readO σ orig with
    | none => .err .typeErr σ
    | some ob =>
      if sentObj ob then .ok orig σ
      else
        match ob with
        | .cls .. => cvRun ng fuel (.klass orig) σ
        | .func .. => copyCallable name orig ng clas σ
        | .method .. => copyCallable name orig ng clas σ
        | .propertyObj .. => copyProperty orig ng σ
        | _ =>
          match dictGetR ng name σ with
          | .ok (some v) σ1 => deepCopy fuel v σ1
          | .ok none σ1 => .err .keyErr σ1
          | .err e σ1 => .err e σ1
  | fuel + 1, .klass c, σ =>
    match readO σ c with
    | some (.cls nm md bases d) =>
      if md then .ok c σ
      else
        let (c', σ1) := alloc σ (.cls nm true bases d)
        match dictSetR ng nm c' σ1 with
        | .ok _ σ2 =>
          match cvRun ng fuel (.attrs c' (sortStrings (d.map Prod.fst))) σ2 with
          | .ok _ σ3 => .ok c' σ3
          | .err e σ3 => .err e σ3
        | .err e σ2 => .err e σ2
    | _ => .err .typeErr σ
  | _ + 1, .attrs _ [], σ => .ok 0 σ
  | fuel + 1, .attrs c' (n :: rest), σ =>
    match cvRun ng fuel (.astep c' n) σ with
    | .ok _ σ' => cvRun ng fuel (.attrs c' rest) σ'
    | .err e σ' =>
      if catchable e then cvRun ng fuel (.attrs c' rest) σ' else .err e σ'
  | fuel + 1, .astep c' n, σ =>
    match getAttrM (some c') n σ with
    | (none, σ1) => .err .attrErr σ1
    | (some v, σ1) =>
      match cvRun ng fuel (.value n v (some (.ofCls c'))) σ1 with
      | .ok v' σ2 =>
        match setAttrM c' n v' σ2 with
        | .ok _ σ3 => .ok 0 σ3
        | .err e σ3 => .err e σ3
      | .err e σ2 => .err e σ2

/-- `copy_value` (lines 279–343), the cloner dispatcher. -/
def copyValue (fuel : Nat) (name : String) (orig ng : Oid)
    (clas : Option TyRef) (σ : St) : Res Oid :=
  cvRun ng fuel (.value name orig clas) σ

/-- `copy_class` (lines 94–123). -/
def copyClass (fuel : Nat) (c : Oid) (ng : Oid) (σ : St) : Res Oid :=
  cvRun ng fuel (.klass c) σ

/-- The attribute loop of `copy_class` (lines 117–122). -/
def copyClassAttrs (fuel : Nat) (c' ng : Oid) (names : List String)
    (σ : St) : Res Unit :=
  match cvRun ng fuel (.attrs c' names) σ with
  | .ok _ σ' => .ok () σ'
  | .err e σ' => .err e σ'

/-- One iteration of the attribute loop of `copy_class`. -/
def attrStep (fuel : Nat) (c' ng : Oid) (n : String) (σ : St) : Res Unit :=
  match cvRun ng fuel (.astep c' n) σ with
  | .ok _ σ' => .ok () σ'
  | .err e σ' => .err e σ'

/-! ### The Path Resolver (`copy_name`, lines 201–234) -/

/-- The `(part_name, part_path)` pairs of `copy_name` line 216: each
segment of the dotted name together with the cumulative dotted path up
to and including it. -/
def segPairsAux (pre : String) : List String → List (String × String)
  | [] => []
  | p :: rest =>
    let path := if pre = "" then p else pre ++ "." ++ p
    (p, path) :: segPairsAux path rest

/-- Split a dotted name into segment/path pairs. -/
def segPairs (thing : String) : List (String × String) :=
  segPairsAux "" (splitDots thing)

/-- The loop of `copy_name` (lines 217–233).  Per segment:
`new_globals.get(part_path, getattr(current_object, part_name, Mock()))`
— note Python evaluates the fallback eagerly, so a fresh `Mock` instance
is allocated at every segment; the resolved value is cloned through
`copy_value` with the value itself as clone context when it is a class
and its type otherwise; the first clone becomes the root, later clones
are attached to the previous cursor with `setattr`. -/
def copyNameLoop (fuel : Nat) (ng : Oid) :
    List (String × String) → Option Oid → Option Oid → St → Res (Option Oid)
  | [], copyObj, _, σ => .ok copyObj σ
  | (pn, pp) :: rest, copyObj, cur, σ =>
    let (m, σ1) := alloc σ (.mockInst [])
    let (fb?, σ2) := getAttrM cur pn σ1
    let fb := fb?.getD m
    match dictGetR ng pp σ2 with
    | .ok v? σ3 =>
      let nxt := v?.getD fb
      match readO σ3 nxt with
      | none => .err .typeErr σ3
      | some ob =>
        let clasR : TyRef :=
          match ob with
          | .cls .. => .ofCls nxt
          | _ => tyRefOfVal ob
        match copyValue fuel pp nxt ng (some clasR) σ3 with
        | .ok nxt' σ4 =>
          match copyObj with
          | none => copyNameLoop fuel ng rest (some nxt') (some nxt') σ4
          | some _ =>
            match cur with
            | some co =>
              match setAttrM co pn nxt' σ4 with
              | .ok _ σ5 => copyNameLoop fuel ng rest copyObj (some nxt') σ5
              | .err e σ5 => .err e σ5
            | none => .err .typeErr σ4
        | .err e σ4 => .err e σ4
    | .err e σ3 => .err e σ3

/-- `copy_name` (lines 201–234). -/
def copyName (fuel : Nat) (thing : String) (ng : Oid) (σ : St) :
    Res (Option Oid) :=
  copyNameLoop fuel ng (segPairs thing) none none σ

/-! ### The Mock Applier (`MockableDocTestParser`, lines 346–428) -/

/-- The constructor-supplied mock table: module name to test name to a
table of mock names and replacement values. -/
abbrev MockTable := List (String × List (String × List (String × Oid)))

/-- `flatten_mocks` (lines 359–373): map each `module.testname` to its
inner mock table; on collision the last write wins. -/
def flattenMocks (mt : MockTable) : List (String × List (String × Oid)) :=
  mt.foldl
    (fun acc p =>
      p.2.foldl (fun acc q => dictSetL acc (p.1 ++ "." ++ q.1) q.2) acc)
    []

/-- First loop of `apply_mocks` (lines 396–397): for every mocked name in
sorted order, resolve and clone it through `copy_name` and store the
result under the name's first segment. -/
def amLoop1 (fuel : Nat) (ng : Oid) : List String → St → Res Unit
  | [], σ => .ok () σ
  | mn :: rest, σ =>
    match copyName fuel mn ng σ with
    | .ok (some v) σ' =>
      match dictSetR ng ((splitDots mn).headD "") v σ' with
      | .ok _ σ'' => amLoop1 fuel ng rest σ''
      | .err e σ'' => .err e σ''
    | .ok none σ' => .err .typeErr σ'
    | .err e σ' => .err e σ'

/-- Second loop of `apply_mocks` (lines 400–406): every namespace entry
whose key is a trailing suffix of the test name is re-cloned through
`copy_callable` with `clas = type(value)`. -/
def amLoop2 (testName : String) (ng : Oid) : List String → St → Res Unit
  | [], σ => .ok () σ
  | rn :: rest, σ =>
    if endsWithB testName rn then
      match dictGetR ng rn σ with
      | .ok (some v) σ1 =>
        match readO σ1 v with
        | none => .err .typeErr σ1
        | some ob =>
          match copyCallable rn v ng (some (tyRefOfVal ob)) σ1 with
          | .ok v' σ2 =>
            match dictSetR ng rn v' σ2 with
            | .ok _ σ3 => amLoop2 testName ng rest σ3
            | .err e σ3 => .err e σ3
          | .err e σ2 => .err e σ2
      | .ok none σ1 => .err .keyErr σ1
      | .err e σ1 => .err e σ1
    else amLoop2 testName ng rest σ

/-- `apply_mocks` (lines 375–408): if the test name has no entry in the
flattened table, return the input namespace itself; otherwise build a
fresh namespace as a copy of the input overlaid with the replacement
values, run the two loops, and return the new namespace. -/
def applyMocks (fuel : Nat) (mt : MockTable) (name : String) (globs : Oid)
    (σ : St) : Res Oid :=
  match lookupL (flattenMocks mt) name with
  | none => .ok globs σ
  | some inner =>
    match readO σ globs with
    | some (.dict ge) =>
      let (ng, σ1) := alloc σ (.dict (dictUpdateL (dictUpdateL [] ge) inner))
      match amLoop1 fuel ng (sortStrings (inner.map Prod.fst)) σ1 with
      | .ok _ σ2 =>
        match readO σ2 ng with
        | some (.dict nges) =>
          match amLoop2 name ng (nges.map Prod.fst) σ2 with
          | .ok _ σ3 => .ok ng σ3
          | .err e σ3 => .err e σ3
        | _ => .err .typeErr σ2
      | .err e σ2 => .err e σ2
    | _ => .err .typeErr σ

/-! ### Calling conventions for observations -/

/-- Call a function object with no arguments: evaluate its body against
its globals dictionary. -/
def callFn (f : Oid) (σ : St) : Res Oid :=
  match readO σ f with
  | some (.func code gRef _ _ _ _) =>
    match code with
    | .retConst n =>
      let (r, σ') := alloc σ (.int n)
      .ok r σ'
    | .retGlobal x =>
      match dictGetR gRef x σ with
      | .ok (some v) σ' => .ok v σ'
      | .ok none σ' => .err .keyErr σ'
      | .err e σ' => .err e σ'
    | .retGlobalAttr x a =>
      match dictGetR gRef x σ with
      | .ok (some v) σ' =>
        let (r?, σ'') := getAttrM (some v) a σ'
        match r? with
        | some r => .ok r σ''
        | none => .err .attrErr σ''
      | .ok none σ' => .err .keyErr σ'
      | .err e σ' => .err e σ'
  | _ => .err .typeErr σ

/-- Observation harness: look up `key` in namespace `ns`, fetch attribute
`attr` on it (binding methods as Python does), call the resulting
method or function with no arguments, and report the integer result. -/
def obsCallInt (ns : Oid) (key attr : String) (σ : St) : Option Int :=
  match dictGetR ns key σ with
  | .ok (some v) σ1 =>
    let (a?, σ2) := getAttrM (some v) attr σ1
    match a? with
    | some a =>
      let callee : Res Oid :=
        match readO σ2 a with
        | some (.method imF _ _) => callFn imF σ2
        | some (.func ..) => callFn a σ2
        | some (.classmethodObj f) => callFn f σ2
        | _ => .err .typeErr σ2
      match callee with
      | .ok r σ3 =>
        match readO σ3 r with
        | some (.int n) => some n
        | _ => none
      | .err _ _ => none
    | none => none
  | _ => none

/-- The integer value of an `ok` result, if it is an int object. -/
def resInt : Res Oid → Option Int
  | .ok r σ =>
    match readO σ r with
    | some (.int n) => some n
    | _ => none
  | .err _ _ => none

/-- Look up `key` in namespace `ns` and call it as a function. -/
def obsKeyCallInt (ns : Oid) (key : String) (σ : St) : Option Int :=
  match dictGetR ns key σ with
  | .ok (some f) σ1 => resInt (callFn f σ1)
  | _ => none

/-- Apply mocks, then call the function stored under `key` in the
returned namespace. -/
def applyThenKeyCall (fuel : Nat) (mt : MockTable) (name : String)
    (globs : Oid) (key : String) (σ : St) : Option Int :=
  match applyMocks fuel mt name globs σ with
  | .ok ns σ1 => obsKeyCallInt ns key σ1
  | .err _ _ => none

/-- Apply mocks, then call the function at a fixed identity (the original
function, reached through the original namespace). -/
def applyThenCallOid (fuel : Nat) (mt : MockTable) (name : String)
    (globs : Oid) (f : Oid) (σ : St) : Option Int :=
  match applyMocks fuel mt name globs σ with
  | .ok _ σ1 => resInt (callFn f σ1)
  | .err _ _ => none

/-- Apply mocks once, then observe `ns[key].attr()`. -/
def applyOnceObs (fuel : Nat) (mt : MockTable) (name : String) (globs : Oid)
    (key attr : String) (σ : St) : Option Int :=
  match applyMocks fuel mt name globs σ with
  | .ok ns σ1 => obsCallInt ns key attr σ1
  | .err _ _ => none

/-- Apply mocks twice in sequence (as `get_doctest` does), then observe
`ns[key].attr()` on the second result. -/
def applyTwiceObs (fuel : Nat) (mt : MockTable) (name : String) (globs : Oid)
    (key attr : String) (σ : St) : Option Int :=
  match applyMocks fuel mt name globs σ with
  | .ok ns1 σ1 =>
    match applyMocks fuel mt name ns1 σ1 with
    | .ok ns2 σ2 => obsCallInt ns2 key attr σ2
    | .err _ _ => none
  | .err _ _ => none

/-! ### Frame predicates and observation relations -/

/-- Whether the object at identity `i` is a Sentinel Marker. -/
def sentAtB (σ : St) (i : Oid) : Bool :=
  match σ[i]? with
  | some ob => sentObj ob
  | none => false

/-- Object kinds on which `setattr` raises `AttributeError`. -/
def unsettableAt (σ : St) (i : Oid) : Bool :=
  match σ[i]? with
  | some (.cls ..) => false
  | some (.mockInst _) => false
  | some (.func ..) => false
  | some _ => true
  | none => true

/-- Kinds dispatched to the clone branches of `copy_callable`. -/
def isCallableKind : Obj → Bool
  | .func .. => true
  | .method .. => true
  | _ => false

/-- Kinds handled by the opaque (deep-copy) case of `copy_value`. -/
def miscKind : Obj → Bool
  | .int _ => true
  | .str _ => true
  | .list _ => true
  | .dict _ => true
  | .classmethodObj _ => true
  | .staticmethodObj _ => true
  | _ => false

/-- Kinds whose deep copy is a fresh object (mutable values). -/
def mutableKind : Obj → Bool
  | .list _ => true
  | .dict _ => true
  | .mockInst _ => true
  | _ => false

/-- A coarse classification of an object: its constructor together with,
for classes, whether it derives from `Mock`.  No operation of the
library ever changes the classification of an existing heap cell. -/
def kindTag : Obj → Nat
  | .int _ => 0
  | .str _ => 1
  | .list _ => 2
  | .dict _ => 3
  | .func .. => 4
  | .cls _ false _ _ => 5
  | .cls _ true _ _ => 6
  | .method .. => 7
  | .classmethodObj _ => 8
  | .staticmethodObj _ => 9
  | .propertyObj .. => 10
  | .mockInst _ => 11

/-- Kind preservation for every pre-existing cell. -/
def kindPres (σ σ' : St) : Prop :=
  ∀ i, i < σ.length → (σ'[i]?).map kindTag = (σ[i]?).map kindTag

/-- Full frame: the computation only allocated; every pre-existing cell
is untouched. -/
def PFrame (σ σ' : St) : Prop :=
  σ.length ≤ σ'.length ∧ ∀ i, i < σ.length → σ'[i]? = σ[i]?

/-- Cloner-family frame: every pre-existing cell other than the shared
`new_globals` dictionary is untouched, and no pre-existing cell changes
its kind. -/
def GFrame (ng : Oid) (σ σ' : St) : Prop :=
  σ.length ≤ σ'.length ∧
  (∀ i, i < σ.length → i ≠ ng → σ'[i]? = σ[i]?) ∧
  kindPres σ σ'

/-- Frame of the class-attribute loop: as `GFrame`, with the class clone
under construction also exempt. -/
def GFrame2 (ng c : Oid) (σ σ' : St) : Prop :=
  σ.length ≤ σ'.length ∧
  (∀ i, i < σ.length → i ≠ ng → i ≠ c → σ'[i]? = σ[i]?) ∧
  kindPres σ σ'

/-- Path-resolver frame below a baseline `n`: pre-existing cells below
the baseline are untouched unless they are the `new_globals` dictionary
or a Sentinel Marker (which `copy_name` may mutate via `setattr`). -/
def SFrame (n : Nat) (ng : Oid) (σ σ' : St) : Prop :=
  σ.length ≤ σ'.length ∧
  (∀ i, i < n → i ≠ ng → sentAtB σ i = false → σ'[i]? = σ[i]?) ∧
  kindPres σ σ'

/-- Mock-applier frame: every pre-existing non-Sentinel object is
untouched, and no pre-existing cell changes its kind. -/
def AFrame (σ σ' : St) : Prop :=
  σ.length ≤ σ'.length ∧
  (∀ i, i < σ.length → sentAtB σ i = false → σ'[i]? = σ[i]?) ∧
  kindPres σ σ'

/-- Invariant on the cursor of the `copy_name` loop: absent, or fresh
above the baseline, or a Sentinel, or a value `setattr` rejects. -/
def curOK (n : Nat) (σ : St) : Option Oid → Prop
  | none => True
  | some co => n ≤ co ∨ sentAtB σ co = true ∨ unsettableAt σ co = true

/-- Structural equality of deep-copy shapes across a heap: numbers and
strings by value, functions and classes by identity (deep copy treats
them as atomic and shares them), lists, dicts and instances pointwise.
Fuel mirrors the recursion of `dcRun`. -/
def dEq (σ : St) : Nat → DcA → DcA → Bool
  | 0, _, _ => false
  | fuel + 1, .one a, .one b =>
    match σ[a]?, σ[b]? with
    | some (.int x), some (.int y) => x == y
    | some (.str x), some (.str y) => x == y
    | some (.func ..), some (.func ..) => a == b
    | some (.cls ..), some (.cls ..) => a == b
    | some (.list es), some (.list fs) => dEq σ fuel (.many es) (.many fs)
    | some (.dict es), some (.dict fs) => dEq σ fuel (.pairs es) (.pairs fs)
    | some (.mockInst es), some (.mockInst fs) =>
      dEq σ fuel (.pairs es) (.pairs fs)
    | _, _ => false
  | _ + 1, .many [], .many [] => true
  | fuel + 1, .many (a :: as), .many (b :: bs) =>
    dEq σ fuel (.one a) (.one b) && dEq σ fuel (.many as) (.many bs)
  | _ + 1, .pairs [], .pairs [] => true
  | fuel + 1, .pairs ((k, v) :: ps), .pairs ((k2, v2) :: qs) =>
    k == k2 && dEq σ fuel (.one v) (.one v2) && dEq σ fuel (.pairs ps) (.pairs qs)
  | _ + 1, _, _ => false

/-! ### Concrete scenarios -/

/-- C2 scenario: a module namespace `{X: 10, f}` where `f`'s body returns
the global `X`; identity 0 is the module dictionary (also `f`'s globals),
1 is the int 10, 2 is `f`, 3 is the replacement int 7. -/
def σC2 : St :=
  [ .dict [("X", 1), ("f", 2)],
    .int 10,
    .func (.retGlobal "X") 0 [] "f" none [],
    .int 7 ]

/-- C2 mock table: for test `m.f`, replace `X` by the int 7. -/
def mtC2 : MockTable := [("m", [("f", [("X", 3)])])]

/-- C9 scenario: module namespace `{D, E}`; class `D` has a classmethod
`m` returning `E.y`; class `E` has `y = 1`; the table mocks `E.y` to 2
and also lists `D` itself (bound to the original class `D`). -/
def σC9 : St :=
  [ .dict [("D", 1), ("E", 2)],
    .cls "D" false [] [("m", 3)],
    .cls "E" false [] [("y", 5)],
    .classmethodObj 4,
    .func (.retGlobalAttr "E" "y") 0 [] "m" none [],
    .int 1,
    .int 2 ]

/-- C9 mock table for test `mod.D`. -/
def mtC9 : MockTable := [("mod", [("D", [("D", 1), ("E.y", 6)])])]

/-- C5 counterexample scenario: identity 0 is the int 5 handed to
`copy_value`, 1 is the int 6, 2 is a namespace binding `x` to the int 6. -/
def σC5 : St := [ .int 5, .int 6, .dict [("x", 1)] ]

/-- C6 counterexample scenario: a namespace binding `X` to the int 5. -/
def σC6 : St := [ .dict [("X", 1)], .int 5 ]

/-- C4 witness scenario: a module namespace `{X: 10, f}` and a mock
namespace `{X: 7}` at identity 3. -/
def σW4 : St :=
  [ .dict [("X", 1), ("f", 2)],
    .int 10,
    .func (.retGlobal "X") 0 [] "f" none [],
    .dict [("X", 4)],
    .int 7 ]

/-- The exception kind of a result, if it raised. -/
def resErr {α : Type} : Res α → Option PyErr
  | .ok _ _ => none
  | .err e _ => some e

/-- C7 witness scenario: identity 0 is an empty `new_globals`
dictionary, 1 a class clone under construction whose attribute `y`
holds the int at 2; re-cloning `y` raises `KeyError` because the empty
namespace does not bind it. -/
def σ7 : St := [ .dict [], .cls "C" true [] [("y", 2)], .int 3 ]

/-!
## Theorems

Helper lemmas about association lists and frames come first; the claim
theorems follow, each in terms of the definitions above.
-/

theorem lookupL_dictSetL {β : Type} (es : List (String × β)) (k : String)
    (v : β) (k' : String) :
    lookupL (dictSetL es k v) k' = if k = k' then some v else lookupL es k' := by
  induction es with
  | nil => by_cases h : k = k' <;> simp [dictSetL, lookupL, h]
  | cons p r ih =>
    obtain ⟨k0, v0⟩ := p
    by_cases h0 : k0 = k
    · subst h0
      by_cases h : k0 = k' <;> simp [dictSetL, lookupL, h]
    · by_cases h : k0 = k'
      · subst h
        have hkk : ¬ k = k0 := fun he => h0 he.symm
        simp [dictSetL, lookupL, h0, hkk]
      · simp [dictSetL, lookupL, h0, h, ih]

theorem lookupL_eq_none_of_not_mem {β : Type} (es : List (String × β))
    (k : String) (h : k ∉ es.map Prod.fst) : lookupL es k = none := by
  induction es with
  | nil => rfl
  | cons p r ih =>
    simp only [List.map_cons, List.mem_cons] at h
    push_neg at h
    have h1 : ¬ p.1 = k := fun he => h.1 he.symm
    obtain ⟨k0, v0⟩ := p
    simpa [lookupL, h1] using ih h.2

theorem lookupL_dictUpdateL {β : Type} (upd base : List (String × β))
    (k : String) (hnd : (upd.map Prod.fst).Nodup) :
    lookupL (dictUpdateL base upd) k =
      (lookupL upd k).orElse (fun _ => lookupL base k) := by
  induction upd generalizing base with
  | nil => simp [dictUpdateL, lookupL, Option.orElse]
  | cons p r ih =>
    obtain ⟨k0, v0⟩ := p
    simp only [List.map_cons, List.nodup_cons] at hnd
    have step : dictUpdateL base ((k0, v0) :: r) =
        dictUpdateL (dictSetL base k0 v0) r := rfl
    rw [step, ih _ hnd.2]
    by_cases h : k0 = k
    · subst h
      have : lookupL r k0 = none :=
        lookupL_eq_none_of_not_mem _ _ hnd.1
      simp [lookupL, this, lookupL_dictSetL, Option.orElse]
    · simp [lookupL, h, lookupL_dictSetL, Option.orElse]

theorem dictSetL_eq_of_lookup {β : Type} (es : List (String × β)) (k : String)
    (v : β) (h : lookupL es k = some v) : dictSetL es k v = es := by
  induction es with
  | nil => simp [lookupL] at h
  | cons p r ih =>
    obtain ⟨k0, v0⟩ := p
    by_cases h0 : k0 = k
    · subst h0
      have hv : v0 = v := by simpa [lookupL] using h
      subst hv
      simp [dictSetL]
    · simp only [lookupL, if_neg h0] at h
      simp [dictSetL, h0, ih h]

theorem set_eq_self_of_getElem {α : Type} (l : List α) (i : Nat) (v : α)
    (h : l[i]? = some v) : l.set i v = l := by
  induction l generalizing i with
  | nil => simp at h
  | cons a r ih =>
    cases i with
    | zero => simp at h; simp [h]
    | succ j => simp at h; simp [List.set, ih j h]

/-- Shared helper for C10: `copy_callable` on a value that is neither a
method nor a function returns it unchanged with no heap effect. -/
theorem copyCallable_noncallable (name : String) (orig ng : Oid)
    (clas : Option TyRef) (σ : St) (ob : Obj)
    (hread : readO σ orig = some ob) (hnc : isCallableKind ob = false) :
    copyCallable name orig ng clas σ = .ok orig σ := by
  unfold copyCallable
  rw [hread]
  cases ob <;> simp_all [isCallableKind]

/-- Claim C3: an object that is an instance of the `Mock` sentinel class,
or a class deriving from it, is returned by the dispatcher `copy_value`
unchanged — the very same object, with no heap effect — for every name,
namespace, clone-context and heap. -/
theorem C3_sentinel_passthrough (fuel : Nat) (name : String) (orig ng : Oid)
    (clas : Option TyRef) (σ : St) (ob : Obj)
    (hread : readO σ orig = some ob) (hsent : sentObj ob = true) :
    copyValue (fuel + 1) name orig ng clas σ = .ok orig σ := by
  unfold copyValue cvRun
  rw [hread]
  simp [hsent]

/-- Witness for C3 at a concrete heap: a `Mock` instance and a
`Mock`-derived class both pass through `copy_value` by identity. -/
theorem C3_witness :
    readO [Obj.mockInst [], Obj.cls "A" true [] []] 0 = some (.mockInst []) ∧
    readO [Obj.mockInst [], Obj.cls "A" true [] []] 1 =
      some (.cls "A" true [] []) ∧
    copyValue 5 "a" 0 0 none [Obj.mockInst [], Obj.cls "A" true [] []] =
      .ok 0 [Obj.mockInst [], Obj.cls "A" true [] []] ∧
    copyValue 5 "a" 1 0 none [Obj.mockInst [], Obj.cls "A" true [] []] =
      .ok 1 [Obj.mockInst [], Obj.cls "A" true [] []] :=
  ⟨rfl, rfl,
    C3_sentinel_passthrough 4 "a" 0 0 none _ _ rfl rfl,
    C3_sentinel_passthrough 4 "a" 1 0 none _ _ rfl rfl⟩

/-- Claim C10: `copy_callable` returns any input that is neither a method
object nor a plain function unchanged (identity, no heap effect); and
consequently the re-cloning loop of `apply_mocks` over namespace keys
that are trailing suffixes of the test name passes such an entry through
by identity — the namespace and heap after that entry's step are
literally unchanged — rather than raising. -/
theorem C10_noncallable_identity (name : String) (orig ng : Oid)
    (clas : Option TyRef) (σ : St) (ob : Obj)
    (hread : readO σ orig = some ob) (hnc : isCallableKind ob = false) :
    copyCallable name orig ng clas σ = .ok orig σ ∧
    ∀ (tn : String) (rest : List String) es,
      endsWithB tn name = true →
      σ[ng]? = some (.dict es) → lookupL es name = some orig →
      amLoop2 tn ng (name :: rest) σ = amLoop2 tn ng rest σ := by
  refine ⟨copyCallable_noncallable name orig ng clas σ ob hread hnc, ?_⟩
  intro tn rest es hsuf hng hlk
  have hget : dictGetR ng name σ = .ok (some orig) σ := by
    simp [dictGetR, readO, hng, hlk]
  have hset : dictSetR ng name orig σ = .ok () σ := by
    simp [dictSetR, readO, hng, dictSetL_eq_of_lookup es name orig hlk,
      writeO, set_eq_self_of_getElem σ ng (.dict es) hng]
  have hcc := copyCallable_noncallable name orig ng (some (tyRefOfVal ob)) σ ob
    hread hnc
  conv_lhs => rw [amLoop2]
  simp [hsuf, hget, hread, hcc, hset]

/-- Witness for C10 at a concrete heap: an int bound under a
suffix-matching key passes through the suffix loop with no effect. -/
theorem C10_witness :
    readO [Obj.dict [("f", 1)], Obj.int 4] 1 = some (.int 4) ∧
    isCallableKind (.int 4) = false ∧
    copyCallable "f" 1 0 none [Obj.dict [("f", 1)], Obj.int 4] =
      .ok 1 [Obj.dict [("f", 1)], Obj.int 4] ∧
    amLoop2 "m.f" 0 ["f"] [Obj.dict [("f", 1)], Obj.int 4] =
      amLoop2 "m.f" 0 [] [Obj.dict [("f", 1)], Obj.int 4] :=
  ⟨rfl, rfl,
    (C10_noncallable_identity "f" 1 0 none
      [Obj.dict [("f", 1)], Obj.int 4] (.int 4) rfl rfl).1,
    (C10_noncallable_identity "f" 1 0 none
      [Obj.dict [("f", 1)], Obj.int 4] (.int 4) rfl rfl).2 "m.f" []
      [("f", 1)] (by decide) rfl rfl⟩

/-- Claim C2: with module value `X = 10` and the mock table replacing `X`
by 7 for test `m.f`, the function stored under `f` in the namespace
returned by `apply_mocks` returns 7 when called, while the original `f`
(identity 2), whose globals are the original module namespace, still
returns 10 when called after the mocks were applied. -/
theorem C2_mocked_free_variable :
    applyThenKeyCall 20 mtC2 "m.f" 0 "f" σC2 = some 7 ∧
    applyThenCallOid 20 mtC2 "m.f" 0 2 σC2 = some 10 := by
  constructor <;> rfl

/-- Counterexample for C5: `copy_value`'s opaque case does not deep-copy
the object handed to it; it deep-copies the namespace entry under the
given name.  Here the object handed in is the int 5 (identity 0), the
namespace binds `x` to the int 6 (identity 1), and the result is
identity 1 — the int 6, not a copy of 5. -/
theorem C5_counterexample :
    copyValue 10 "x" 0 2 none σC5 = .ok 1 σC5 ∧
    readO σC5 0 = some (.int 5) ∧
    resInt (copyValue 10 "x" 0 2 none σC5) = some 6 := by
  refine ⟨rfl, rfl, rfl⟩

/-- Counterexample for C6: resolution of an unresolvable segment can
raise outward.  With namespace `{X: 5}`, resolving `X.y` leaves the
cursor at an int; the unresolvable segment `y` degrades to a fresh
`Mock`, but attaching it via `setattr` to the int raises an
`AttributeError` that propagates out of `copy_name`. -/
theorem C6_counterexample :
    resErr (copyName 10 "X.y" 0 σC6) = some .attrErr := by
  rfl

/-- Counterexample for C9: applying the Mock Applier twice is not
behaviorally equivalent to applying it once.  In scenario `σC9` the
table for test `mod.D` mocks `E.y` to 2 and also binds `D` to the
(non-sentinel) class `D`; after one application, `D.m()` — which returns
`E.y` — observes the original `E` and yields 1, but after a second
application the re-cloned `D.m()` observes the first pass's mocked clone
of `E` and yields 2. -/
theorem C9_counterexample :
    applyOnceObs 20 mtC9 "mod.D" 0 "D" "m" σC9 = some 1 ∧
    applyTwiceObs 20 mtC9 "mod.D" 0 "D" "m" σC9 = some 2 := by
  constructor <;> rfl

theorem readO_lt {σ : St} {o : Oid} {ob : Obj} (h : readO σ o = some ob) :
    o < σ.length := by
  by_contra hge
  have : σ[o]? = none := List.getElem?_eq_none (Nat.le_of_not_lt hge)
  rw [readO] at h
  rw [this] at h
  cases h

theorem orElse_none_right {α : Type} (x : Option α) :
    (x.orElse fun _ => none) = x := by
  cases x <;> rfl

/-- Claim C4: `copy_function` returns a fresh callable, distinct from the
input `f`, sharing `f`'s code and the very same default-value objects,
whose globals dictionary binds every key other than `f`'s name according
to the union of `f`'s globals and the passed namespace with the
namespace taking precedence, and binds the function's own name to the
new function itself; the name and documentation string are carried over
from `f`. -/
theorem C4_copy_function (f nd : Oid) (σ : St) (code : Code) (gRef : Oid)
    (defs : List Oid) (nm : String) (doc : Option String)
    (fattrs : List (String × Oid)) (ge ne : List (String × Oid))
    (hf : readO σ f = some (.func code gRef defs nm doc fattrs))
    (hg : readO σ gRef = some (.dict ge))
    (hn : readO σ nd = some (.dict ne))
    (hgnd : (ge.map Prod.fst).Nodup) (hnnd : (ne.map Prod.fst).Nodup) :
    ∃ g gd σ',
      copyFunction f (some nd) σ = .ok g σ' ∧
      σ.length ≤ g ∧ g ≠ f ∧
      readO σ' g = some (.func code gd defs nm doc (dictUpdateL [] fattrs)) ∧
      ∃ ges, readO σ' gd = some (.dict ges) ∧
        lookupL ges nm = some g ∧
        ∀ k, k ≠ nm →
          lookupL ges k = (lookupL ne k).orElse (fun _ => lookupL ge k) := by
  have hflt : f < σ.length := readO_lt hf
  simp only [copyFunction, hf, hg, hn]
  simp only [alloc, List.length_append, List.length_cons, List.length_nil,
    Nat.add_zero, Nat.zero_add]
  refine ⟨_, σ.length, _, rfl, ?_, ?_, ?_, ?_⟩
  · exact Nat.le_succ _
  · exact Nat.ne_of_gt (Nat.lt_succ_of_lt hflt)
  · simp only [writeO, readO]
    rw [List.getElem?_set_eq_of_lt _ (by simp)]
  · refine ⟨dictSetL (dictUpdateL (dictUpdateL [] ge) ne) nm (σ.length + 1),
      ?_, ?_, ?_⟩
    · simp only [writeO, readO]
      rw [List.getElem?_set_ne (by omega),
        List.getElem?_set_eq_of_lt _ (by simp)]
    · rw [lookupL_dictSetL]
      simp
    · intro k hk
      rw [lookupL_dictSetL, if_neg (fun he => hk he.symm),
        lookupL_dictUpdateL _ _ _ hnnd, lookupL_dictUpdateL _ _ _ hgnd]
      simp [lookupL, orElse_none_right]

/-- Witness for C4 at a concrete heap: cloning the function at identity 2
with namespace `{X: 7}` yields a fresh function whose globals bind `X`
to the mock and the function's own name to itself. -/
theorem C4_witness :
    readO σW4 2 = some (.func (.retGlobal "X") 0 [] "f" none []) ∧
    readO σW4 0 = some (.dict [("X", 1), ("f", 2)]) ∧
    readO σW4 3 = some (.dict [("X", 4)]) ∧
    (∃ g gd σ',
      copyFunction 2 (some 3) σW4 = .ok g σ' ∧
      σW4.length ≤ g ∧ g ≠ 2 ∧
      readO σ' g = some (.func (.retGlobal "X") gd [] "f" none
        (dictUpdateL [] [])) ∧
      ∃ ges, readO σ' gd = some (.dict ges) ∧
        lookupL ges "f" = some g ∧
        ∀ k, k ≠ "f" →
          lookupL ges k =
            (lookupL [("X", (4 : Oid))] k).orElse
              (fun _ => lookupL [("X", (1 : Oid)), ("f", 2)] k)) :=
  ⟨rfl, rfl, rfl,
    C4_copy_function 2 3 σW4 (.retGlobal "X") 0 [] "f" none []
      [("X", 1), ("f", 2)] [("X", 4)] rfl rfl rfl (by decide) (by decide)⟩

/-! ### Frame lemmas for the primitive operations -/

theorem pframe_refl (σ : St) : PFrame σ σ := ⟨Nat.le_refl _, fun _ _ => rfl⟩

theorem pframe_trans {σ1 σ2 σ3 : St} (h1 : PFrame σ1 σ2) (h2 : PFrame σ2 σ3) :
    PFrame σ1 σ3 := by
  refine ⟨Nat.le_trans h1.1 h2.1, fun i hi => ?_⟩
  rw [h2.2 i (Nat.lt_of_lt_of_le hi h1.1), h1.2 i hi]

theorem pframe_alloc (σ : St) (ob : Obj) : PFrame σ (alloc σ ob).2 := by
  refine ⟨by simp [alloc], fun i hi => ?_⟩
  simp only [alloc]
  exact List.getElem?_append_left hi

theorem kindPres_refl (σ : St) : kindPres σ σ := fun _ _ => rfl

theorem kindPres_of_pframe {σ σ' : St} (h : PFrame σ σ') : kindPres σ σ' :=
  fun i hi => by rw [h.2 i hi]

theorem kindPres_trans {σ1 σ2 σ3 : St} (hl : σ1.length ≤ σ2.length)
    (h1 : kindPres σ1 σ2) (h2 : kindPres σ2 σ3) : kindPres σ1 σ3 :=
  fun i hi => by rw [h2 i (Nat.lt_of_lt_of_le hi hl), h1 i hi]

theorem sentAtB_eq_of_getElem {σ σ' : St} {i : Oid} (h : σ'[i]? = σ[i]?) :
    sentAtB σ' i = sentAtB σ i := by
  unfold sentAtB
  rw [h]

/-- Sentinel status is a function of the kind tag. -/
theorem sentObj_kind (ob : Obj) :
    sentObj ob = decide (kindTag ob = 6 ∨ kindTag ob = 11) := by
  cases ob with
  | cls nm md bs d => cases md <;> rfl
  | _ => rfl

/-- Sentinel status is determined by the kind tag. -/
theorem sentAtB_of_kindPres {σ σ' : St} {i : Oid} (hlt : i < σ.length)
    (h : kindPres σ σ') : sentAtB σ' i = sentAtB σ i := by
  have hk := h i hlt
  unfold sentAtB
  cases hg : σ[i]? with
  | none =>
    rw [hg] at hk
    cases hgp : σ'[i]? with
    | none => rfl
    | some ob => rw [hgp] at hk; simp at hk
  | some ob =>
    rw [hg] at hk
    cases hgp : σ'[i]? with
    | none => rw [hgp] at hk; simp at hk
    | some ob' =>
      rw [hgp] at hk
      have hkk : kindTag ob' = kindTag ob := by simpa using hk
      show sentObj ob' = sentObj ob
      rw [sentObj_kind ob, sentObj_kind ob', hkk]

theorem gframe_refl (ng : Oid) (σ : St) : GFrame ng σ σ :=
  ⟨Nat.le_refl _, fun _ _ _ => rfl, kindPres_refl σ⟩

theorem gframe_of_pframe {ng : Oid} {σ σ' : St} (h : PFrame σ σ') :
    GFrame ng σ σ' :=
  ⟨h.1, fun i hi _ => h.2 i hi, kindPres_of_pframe h⟩

theorem gframe_trans {ng : Oid} {σ1 σ2 σ3 : St} (h1 : GFrame ng σ1 σ2)
    (h2 : GFrame ng σ2 σ3) : GFrame ng σ1 σ3 := by
  refine ⟨Nat.le_trans h1.1 h2.1, fun i hi hng => ?_,
    kindPres_trans h1.1 h1.2.2 h2.2.2⟩
  rw [h2.2.1 i (Nat.lt_of_lt_of_le hi h1.1) hng, h1.2.1 i hi hng]

theorem gframe2_of_gframe {ng c : Oid} {σ σ' : St} (h : GFrame ng σ σ') :
    GFrame2 ng c σ σ' :=
  ⟨h.1, fun i hi hng _ => h.2.1 i hi hng, h.2.2⟩

theorem gframe2_trans {ng c : Oid} {σ1 σ2 σ3 : St} (h1 : GFrame2 ng c σ1 σ2)
    (h2 : GFrame2 ng c σ2 σ3) : GFrame2 ng c σ1 σ3 := by
  refine ⟨Nat.le_trans h1.1 h2.1, fun i hi hng hc => ?_,
    kindPres_trans h1.1 h1.2.2 h2.2.2⟩
  rw [h2.2.1 i (Nat.lt_of_lt_of_le hi h1.1) hng hc, h1.2.1 i hi hng hc]

theorem sframe_of_gframe {n : Nat} {ng : Oid} {σ σ' : St} (hn : n ≤ σ.length)
    (h : GFrame ng σ σ') : SFrame n ng σ σ' :=
  ⟨h.1, fun i hi hng _ => h.2.1 i (Nat.lt_of_lt_of_le hi hn) hng, h.2.2⟩

theorem sframe_trans {n : Nat} {ng : Oid} {σ1 σ2 σ3 : St} (hn : n ≤ σ1.length)
    (h1 : SFrame n ng σ1 σ2) (h2 : SFrame n ng σ2 σ3) :
    SFrame n ng σ1 σ3 := by
  refine ⟨Nat.le_trans h1.1 h2.1, fun i hi hng hs => ?_,
    kindPres_trans h1.1 h1.2.2 h2.2.2⟩
  have hp := h1.2.1 i hi hng hs
  have hs2 : sentAtB σ2 i = false := by rw [sentAtB_eq_of_getElem hp, hs]
  rw [h2.2.1 i hi hng hs2, hp]

theorem getAttrM_pframe (x : Option Oid) (n : String) (σ : St) :
    PFrame σ (getAttrM x n σ).2 := by
  unfold getAttrM
  split
  · exact pframe_refl σ
  · split
    · split
      · split
        · exact pframe_alloc σ _
        · exact pframe_alloc σ _
        · exact pframe_refl σ
        · exact pframe_refl σ
      · exact pframe_refl σ
    · exact pframe_refl σ
    · exact pframe_refl σ
    · exact pframe_refl σ

theorem getAttrM_none_state {x : Option Oid} {n : String} {σ σ' : St}
    (h : getAttrM x n σ = (none, σ')) : σ' = σ := by
  unfold getAttrM at h
  split at h
  all_goals try split at h
  all_goals try split at h
  all_goals try split at h
  all_goals try split at h
  all_goals injection h with h1 h2
  all_goals first
    | exact h2.symm
    | cases h1

theorem dictGetR_st (d : Oid) (k : String) (σ : St) :
    (dictGetR d k σ).st = σ := by
  unfold dictGetR
  split <;> rfl

theorem setAttrM_err {o : Oid} {name : String} {v : Oid} {σ : St} {e : PyErr}
    {σ' : St} (h : setAttrM o name v σ = .err e σ') : σ' = σ := by
  unfold setAttrM at h
  split at h <;> cases h <;> rfl

theorem writeO_getElem_ne {σ : St} {o i : Oid} {ob : Obj} (h : i ≠ o) :
    (writeO σ o ob)[i]? = σ[i]? :=
  List.getElem?_set_ne (fun he => h he.symm)

theorem writeO_getElem_self {σ : St} {o : Oid} {ob : Obj} (h : o < σ.length) :
    (writeO σ o ob)[o]? = some ob :=
  List.getElem?_set_eq_of_lt ob h

theorem setAttrM_ok {o : Oid} {name : String} {v : Oid} {σ : St} {u : Unit}
    {σ' : St} (h : setAttrM o name v σ = .ok u σ') :
    σ'.length = σ.length ∧ (∀ i, i ≠ o → σ'[i]? = σ[i]?) ∧
    (σ'[o]?).map kindTag = (σ[o]?).map kindTag ∧
    unsettableAt σ o = false := by
  unfold setAttrM at h
  split at h <;> cases h
  · rename_i nm md bs d hro
    refine ⟨by simp [writeO], fun i hi => writeO_getElem_ne hi, ?_, ?_⟩
    · rw [writeO_getElem_self (readO_lt hro), show σ[o]? = _ from hro]
      cases md <;> rfl
    · simp [unsettableAt, show σ[o]? = _ from hro]
  · rename_i attrs hro
    refine ⟨by simp [writeO], fun i hi => writeO_getElem_ne hi, ?_, ?_⟩
    · rw [writeO_getElem_self (readO_lt hro), show σ[o]? = _ from hro]
      rfl
    · simp [unsettableAt, show σ[o]? = _ from hro]
  · rename_i code g defs nm doc fattrs hro
    refine ⟨by simp [writeO], fun i hi => writeO_getElem_ne hi, ?_, ?_⟩
    · rw [writeO_getElem_self (readO_lt hro), show σ[o]? = _ from hro]
      rfl
    · simp [unsettableAt, show σ[o]? = _ from hro]

theorem dictSetR_ok {d : Oid} {k : String} {v : Oid} {σ : St} {u : Unit}
    {σ' : St} (h : dictSetR d k v σ = .ok u σ') :
    σ'.length = σ.length ∧ (∀ i, i ≠ d → σ'[i]? = σ[i]?) ∧
    (∃ es es', σ[d]? = some (.dict es) ∧ σ'[d]? = some (.dict es')) := by
  unfold dictSetR at h
  split at h <;> cases h
  rename_i es hro
  rw [readO] at hro
  have hlt : d < σ.length := by
    by_contra hge
    rw [List.getElem?_eq_none (Nat.le_of_not_lt hge)] at hro
    cases hro
  exact ⟨List.length_set .., fun i hi => writeO_getElem_ne hi,
    es, dictSetL es k v, hro, writeO_getElem_self hlt⟩

theorem dictSetR_err {d : Oid} {k : String} {v : Oid} {σ : St} {e : PyErr}
    {σ' : St} (h : dictSetR d k v σ = .err e σ') : σ' = σ := by
  unfold dictSetR at h
  split at h <;> cases h
  rfl

theorem dictSetR_gframe {ng : Oid} {k : String} {v : Oid} {σ : St} :
    GFrame ng σ (dictSetR ng k v σ).st := by
  cases h : dictSetR ng k v σ with
  | ok u σ' =>
    obtain ⟨hlen, hne, es, es', hd, hd'⟩ := dictSetR_ok h
    refine ⟨Nat.le_of_eq hlen.symm, fun i _ hi => hne i hi, fun i hi => ?_⟩
    simp only [Res.st]
    by_cases hie : i = ng
    · subst hie
      rw [hd, hd']
      rfl
    · rw [hne i hie]
  | err e σ' =>
    rw [dictSetR_err h]
    exact gframe_refl ng σ

/-! ### Frame and correctness lemmas for `deepcopy` -/

theorem dcRun_pframe : ∀ (fuel : Nat) (x : DcA) (σ : St),
    PFrame σ (dcRun fuel x σ).st := by
  intro fuel
  induction fuel with
  | zero => exact fun x σ => pframe_refl σ
  | succ fl ih =>
    intro x σ
    cases x with
    | one o =>
      cases hro : readO σ o with
      | none =>
        simp only [dcRun, hro]
        exact pframe_refl σ
      | some ob =>
        cases ob
        case list es =>
          simp only [dcRun, hro]
          cases hdc : dcRun fl (.many es) σ with
          | ok y σ' =>
            have hx := ih (.many es) σ
            rw [hdc] at hx
            cases y <;> exact pframe_trans hx (by first
              | exact pframe_alloc σ' _
              | exact pframe_refl σ')
          | err e σ' =>
            have hx := ih (.many es) σ
            rw [hdc] at hx
            exact hx
        case dict es =>
          simp only [dcRun, hro]
          cases hdc : dcRun fl (.pairs es) σ with
          | ok y σ' =>
            have hx := ih (.pairs es) σ
            rw [hdc] at hx
            cases y <;> exact pframe_trans hx (by first
              | exact pframe_alloc σ' _
              | exact pframe_refl σ')
          | err e σ' =>
            have hx := ih (.pairs es) σ
            rw [hdc] at hx
            exact hx
        case mockInst es =>
          simp only [dcRun, hro]
          cases hdc : dcRun fl (.pairs es) σ with
          | ok y σ' =>
            have hx := ih (.pairs es) σ
            rw [hdc] at hx
            cases y <;> exact pframe_trans hx (by first
              | exact pframe_alloc σ' _
              | exact pframe_refl σ')
          | err e σ' =>
            have hx := ih (.pairs es) σ
            rw [hdc] at hx
            exact hx
        all_goals simp only [dcRun, hro]
        all_goals exact pframe_refl σ
    | many es =>
      cases es with
      | nil =>
        simp only [dcRun]
        exact pframe_refl σ
      | cons e r =>
        simp only [dcRun]
        cases hdc : dcRun fl (.one e) σ with
        | ok y σ' =>
          have hx := ih (.one e) σ
          rw [hdc] at hx
          cases y with
          | one e' =>
            dsimp only
            cases hdc2 : dcRun fl (.many r) σ' with
            | ok y2 σ'' =>
              have hx2 := ih (.many r) σ'
              rw [hdc2] at hx2
              cases y2 <;> exact pframe_trans hx hx2
            | err e2 σ'' =>
              have hx2 := ih (.many r) σ'
              rw [hdc2] at hx2
              exact pframe_trans hx hx2
          | many _ => exact hx
          | pairs _ => exact hx
        | err e2 σ' =>
          have hx := ih (.one e) σ
          rw [hdc] at hx
          exact hx
    | pairs ps =>
      cases ps with
      | nil =>
        simp only [dcRun]
        exact pframe_refl σ
      | cons kv r =>
        obtain ⟨k, v⟩ := kv
        simp only [dcRun]
        cases hdc : dcRun fl (.one v) σ with
        | ok y σ' =>
          have hx := ih (.one v) σ
          rw [hdc] at hx
          cases y with
          | one v' =>
            dsimp only
            cases hdc2 : dcRun fl (.pairs r) σ' with
            | ok y2 σ'' =>
              have hx2 := ih (.pairs r) σ'
              rw [hdc2] at hx2
              cases y2 <;> exact pframe_trans hx hx2
            | err e2 σ'' =>
              have hx2 := ih (.pairs r) σ'
              rw [hdc2] at hx2
              exact pframe_trans hx hx2
          | many _ => exact hx
          | pairs _ => exact hx
        | err e2 σ' =>
          have hx := ih (.one v) σ
          rw [hdc] at hx
          exact hx

theorem deepCopy_pframe (fuel : Nat) (o : Oid) (σ : St) :
    PFrame σ (deepCopy fuel o σ).st := by
  unfold deepCopy
  have hx := dcRun_pframe fuel (.one o) σ
  cases hdc : dcRun fuel (.one o) σ with
  | ok y σ' =>
    rw [hdc] at hx
    cases y <;> exact hx
  | err e σ' =>
    rw [hdc] at hx
    exact hx

theorem dcRun_len {fl : Nat} {x : DcA} {σ : St} {y : DcA} {σ' : St}
    (h : dcRun fl x σ = .ok y σ') : σ.length ≤ σ'.length := by
  have hx := dcRun_pframe fl x σ
  rw [h] at hx
  exact hx.1

theorem dcRun_pres {fl : Nat} {x : DcA} {σ : St} {y : DcA} {σ' : St}
    (h : dcRun fl x σ = .ok y σ') : ∀ i, i < σ.length → σ'[i]? = σ[i]? := by
  have hx := dcRun_pframe fl x σ
  rw [h] at hx
  exact hx.2

/-- A successful deep copy produces a structurally equal value: numbers
and strings by value, functions and classes shared by identity, lists,
dicts and instances pointwise, as read in any heap agreeing with the
final one. -/
theorem dcRun_eq : ∀ (fuel : Nat) (x : DcA) (σ : St) (y : DcA) (σ' : St),
    dcRun fuel x σ = .ok y σ' →
    ∀ σf : St, (∀ i, i < σ'.length → σf[i]? = σ'[i]?) →
    dEq σf fuel x y = true := by
  intro fuel
  induction fuel with
  | zero => intro x σ y σ' h; cases h
  | succ fl ih =>
    intro x σ y σ' h σf hext
    cases x with
    | one o =>
      cases hro : readO σ o with
      | none => simp only [dcRun, hro] at h; cases h
      | some ob =>
        have holt : o < σ.length := readO_lt hro
        cases ob
        case int n =>
          simp only [dcRun, hro] at h
          cases h
          have ho : σf[o]? = some (.int n) := by
            rw [hext o holt]
            exact hro
          simp [dEq, ho]
        case str s =>
          simp only [dcRun, hro] at h
          cases h
          have ho : σf[o]? = some (.str s) := by
            rw [hext o holt]
            exact hro
          simp [dEq, ho]
        case func code g defs nm doc fattrs =>
          simp only [dcRun, hro] at h
          cases h
          have ho : σf[o]? = some (.func code g defs nm doc fattrs) := by
            rw [hext o holt]
            exact hro
          simp [dEq, ho]
        case cls nm md bs d =>
          simp only [dcRun, hro] at h
          cases h
          have ho : σf[o]? = some (.cls nm md bs d) := by
            rw [hext o holt]
            exact hro
          simp [dEq, ho]
        case list es =>
          simp only [dcRun, hro] at h
          cases hdc : dcRun fl (.many es) σ with
          | ok ym σmid =>
            rw [hdc] at h
            cases ym
            case one a => cases h
            case pairs a => cases h
            case many es' =>
            cases h
            have hlm : σ.length ≤ σmid.length := dcRun_len hdc
            have hlen2 : List.length (alloc σmid (Obj.list es')).2 =
                σmid.length + 1 := by
              simp [alloc]
            have hb1 : o < List.length (alloc σmid (Obj.list es')).2 := by
              rw [hlen2]
              exact Nat.lt_succ_of_lt (Nat.lt_of_lt_of_le holt hlm)
            have ho : σf[o]? = some (.list es) := by
              rw [hext o hb1]
              show (σmid ++ [Obj.list es'])[o]? = _
              rw [List.getElem?_append_left (Nat.lt_of_lt_of_le holt hlm),
                dcRun_pres hdc o holt]
              exact hro
            have hb2 : (alloc σmid (Obj.list es')).1 <
                List.length (alloc σmid (Obj.list es')).2 := by
              show σmid.length < _
              rw [hlen2]
              exact Nat.lt_succ_self _
            have hr : σf[(alloc σmid (Obj.list es')).1]? =
                some (.list es') := by
              rw [hext _ hb2]
              show (σmid ++ [Obj.list es'])[σmid.length]? = _
              exact List.getElem?_concat_length ..
            simp only [dEq, ho, hr]
            refine ih (.many es) σ (.many es') σmid hdc σf fun i hi => ?_
            have hb3 : i < List.length (alloc σmid (Obj.list es')).2 := by
              rw [hlen2]
              exact Nat.lt_succ_of_lt hi
            rw [hext i hb3]
            show (σmid ++ [Obj.list es'])[i]? = _
            exact List.getElem?_append_left hi
          | err e σmid => rw [hdc] at h; cases h
        case dict es =>
          simp only [dcRun, hro] at h
          cases hdc : dcRun fl (.pairs es) σ with
          | ok ym σmid =>
            rw [hdc] at h
            cases ym
            case one a => cases h
            case many a => cases h
            case pairs es' =>
            cases h
            have hlm : σ.length ≤ σmid.length := dcRun_len hdc
            have hlen2 : List.length (alloc σmid (Obj.dict es')).2 =
                σmid.length + 1 := by
              simp [alloc]
            have hb1 : o < List.length (alloc σmid (Obj.dict es')).2 := by
              rw [hlen2]
              exact Nat.lt_succ_of_lt (Nat.lt_of_lt_of_le holt hlm)
            have ho : σf[o]? = some (.dict es) := by
              rw [hext o hb1]
              show (σmid ++ [Obj.dict es'])[o]? = _
              rw [List.getElem?_append_left (Nat.lt_of_lt_of_le holt hlm),
                dcRun_pres hdc o holt]
              exact hro
            have hb2 : (alloc σmid (Obj.dict es')).1 <
                List.length (alloc σmid (Obj.dict es')).2 := by
              show σmid.length < _
              rw [hlen2]
              exact Nat.lt_succ_self _
            have hr : σf[(alloc σmid (Obj.dict es')).1]? =
                some (.dict es') := by
              rw [hext _ hb2]
              show (σmid ++ [Obj.dict es'])[σmid.length]? = _
              exact List.getElem?_concat_length ..
            simp only [dEq, ho, hr]
            refine ih (.pairs es) σ (.pairs es') σmid hdc σf fun i hi => ?_
            have hb3 : i < List.length (alloc σmid (Obj.dict es')).2 := by
              rw [hlen2]
              exact Nat.lt_succ_of_lt hi
            rw [hext i hb3]
            show (σmid ++ [Obj.dict es'])[i]? = _
            exact List.getElem?_append_left hi
          | err e σmid => rw [hdc] at h; cases h
        case mockInst es =>
          simp only [dcRun, hro] at h
          cases hdc : dcRun fl (.pairs es) σ with
          | ok ym σmid =>
            rw [hdc] at h
            cases ym
            case one a => cases h
            case many a => cases h
            case pairs es' =>
            cases h
            have hlm : σ.length ≤ σmid.length := dcRun_len hdc
            have hlen2 : List.length (alloc σmid (Obj.mockInst es')).2 =
                σmid.length + 1 := by
              simp [alloc]
            have hb1 : o < List.length (alloc σmid (Obj.mockInst es')).2 := by
              rw [hlen2]
              exact Nat.lt_succ_of_lt (Nat.lt_of_lt_of_le holt hlm)
            have ho : σf[o]? = some (.mockInst es) := by
              rw [hext o hb1]
              show (σmid ++ [Obj.mockInst es'])[o]? = _
              rw [List.getElem?_append_left (Nat.lt_of_lt_of_le holt hlm),
                dcRun_pres hdc o holt]
              exact hro
            have hb2 : (alloc σmid (Obj.mockInst es')).1 <
                List.length (alloc σmid (Obj.mockInst es')).2 := by
              show σmid.length < _
              rw [hlen2]
              exact Nat.lt_succ_self _
            have hr : σf[(alloc σmid (Obj.mockInst es')).1]? =
                some (.mockInst es') := by
              rw [hext _ hb2]
              show (σmid ++ [Obj.mockInst es'])[σmid.length]? = _
              exact List.getElem?_concat_length ..
            simp only [dEq, ho, hr]
            refine ih (.pairs es) σ (.pairs es') σmid hdc σf fun i hi => ?_
            have hb3 : i < List.length (alloc σmid (Obj.mockInst es')).2 := by
              rw [hlen2]
              exact Nat.lt_succ_of_lt hi
            rw [hext i hb3]
            show (σmid ++ [Obj.mockInst es'])[i]? = _
            exact List.getElem?_append_left hi
          | err e σmid => rw [hdc] at h; cases h
        case method imF imS imC => simp only [dcRun, hro] at h; cases h
        case classmethodObj f => simp only [dcRun, hro] at h; cases h
        case staticmethodObj f => simp only [dcRun, hro] at h; cases h
        case propertyObj fg fs fd doc => simp only [dcRun, hro] at h; cases h
    | many es =>
      cases es with
      | nil =>
        simp only [dcRun] at h
        cases h
        simp [dEq]
      | cons e r =>
        simp only [dcRun] at h
        cases hdc1 : dcRun fl (.one e) σ with
        | ok y1 σ1 =>
          rw [hdc1] at h
          cases y1
          case many a => cases h
          case pairs a => cases h
          case one e' =>
          dsimp only at h
          cases hdc2 : dcRun fl (.many r) σ1 with
          | ok y2 σ2 =>
            rw [hdc2] at h
            cases y2
            case one a => cases h
            case pairs a => cases h
            case many r' =>
            cases h
            have h1 := ih (.one e) σ (.one e') σ1 hdc1 σf fun i hi => by
              rw [hext i (Nat.lt_of_lt_of_le hi (dcRun_len hdc2))]
              exact dcRun_pres hdc2 i hi
            have h2 := ih (.many r) σ1 (.many r') _ hdc2 σf hext
            simp [dEq, h1, h2]
          | err e2 σ2 => rw [hdc2] at h; cases h
        | err e2 σ1 => rw [hdc1] at h; cases h
    | pairs ps =>
      cases ps with
      | nil =>
        simp only [dcRun] at h
        cases h
        simp [dEq]
      | cons kv r =>
        obtain ⟨k, v⟩ := kv
        simp only [dcRun] at h
        cases hdc1 : dcRun fl (.one v) σ with
        | ok y1 σ1 =>
          rw [hdc1] at h
          cases y1
          case many a => cases h
          case pairs a => cases h
          case one v' =>
          dsimp only at h
          cases hdc2 : dcRun fl (.pairs r) σ1 with
          | ok y2 σ2 =>
            rw [hdc2] at h
            cases y2
            case one a => cases h
            case many a => cases h
            case pairs r' =>
            cases h
            have h1 := ih (.one v) σ (.one v') σ1 hdc1 σf fun i hi => by
              rw [hext i (Nat.lt_of_lt_of_le hi (dcRun_len hdc2))]
              exact dcRun_pres hdc2 i hi
            have h2 := ih (.pairs r) σ1 (.pairs r') _ hdc2 σf hext
            simp [dEq, h1, h2]
          | err e2 σ2 => rw [hdc2] at h; cases h
        | err e2 σ1 => rw [hdc1] at h; cases h

/-- Shared helper: `copy_value` passes Sentinel Markers through unchanged
(line 334), for every fuel, name, namespace and clone context. -/
theorem copyValue_sent {σ : St} {orig : Oid} {ob : Obj} (fl : Nat)
    (name : String) (ng : Oid) (clas : Option TyRef)
    (hread : readO σ orig = some ob) (hsent : sentObj ob = true) :
    copyValue (fl + 1) name orig ng clas σ = .ok orig σ := by
  unfold copyValue cvRun
  rw [hread]
  simp [hsent]

/-- The deep copy of a single object is either the object itself (only
for the atomic kinds: numbers, strings, functions, classes) or a freshly
allocated identity. -/
theorem dcRun_one_res {fl : Nat} {o : Oid} {σ : St} {y : DcA} {σ' : St}
    (h : dcRun fl (.one o) σ = .ok y σ') :
    (y = .one o ∧ ∃ ob, σ[o]? = some ob ∧
      (kindTag ob = 0 ∨ kindTag ob = 1 ∨ kindTag ob = 4 ∨ kindTag ob = 5 ∨
        kindTag ob = 6)) ∨
    (∃ r, y = .one r ∧ σ.length ≤ r) := by
  cases fl with
  | zero => cases h
  | succ fl =>
    unfold dcRun at h
    split at h
    · cases h
      rename_i hro
      exact Or.inl ⟨rfl, _, hro, Or.inl rfl⟩
    · cases h
      rename_i hro
      exact Or.inl ⟨rfl, _, hro, Or.inr (Or.inl rfl)⟩
    · cases h
      rename_i hro
      exact Or.inl ⟨rfl, _, hro, Or.inr (Or.inr (Or.inl rfl))⟩
    · cases h
      rename_i nm md bs d hro
      cases md
      · exact Or.inl ⟨rfl, _, hro, Or.inr (Or.inr (Or.inr (Or.inl rfl)))⟩
      · exact Or.inl ⟨rfl, _, hro, Or.inr (Or.inr (Or.inr (Or.inr rfl)))⟩
    · split at h <;> cases h
      rename_i heq
      exact Or.inr ⟨_, rfl, dcRun_len heq⟩
    · split at h <;> cases h
      rename_i heq
      exact Or.inr ⟨_, rfl, dcRun_len heq⟩
    · split at h <;> cases h
      rename_i heq
      exact Or.inr ⟨_, rfl, dcRun_len heq⟩
    · cases h
    · cases h
    · cases h
    · cases h
    · cases h


/-- Amended C5: the opaque case of `copy_value` deep-copies the value
bound to `name` in `new_globals` (see the counterexample for the claim
as stated).  When `new_globals` binds `name` at all, the result is a
faithful deep copy of that bound value: the heap changes only by
allocation (originals are unaffected), the result is structurally equal
to the bound value, and for mutable values it is a fresh object.  When
`new_globals` binds `name` to the very object handed in — as always
happens on the `copy_name` path for namespace-resolved segments — this
is a deep copy of the object handed in. -/
theorem deepCopy_spec {fuel : Nat} {v r : Oid} {σ σ' : St}
    (h : deepCopy fuel v σ = .ok r σ') :
    PFrame σ σ' ∧ dEq σ' fuel (.one v) (.one r) = true ∧
    (∀ vb, readO σ v = some vb → mutableKind vb = true →
      σ.length ≤ r ∧ r ≠ v) := by
  unfold deepCopy at h
  cases hdcr : dcRun fuel (.one v) σ with
  | ok y σ2 =>
    rw [hdcr] at h
    cases y
    case many a => cases h
    case pairs a => cases h
    case one rr =>
    cases h
    refine ⟨?_, ?_, ?_⟩
    · have hp := dcRun_pframe fuel (.one v) σ
      rw [hdcr] at hp
      exact hp
    · exact dcRun_eq fuel _ _ _ _ hdcr _ (fun i hi => rfl)
    · intro vb hvb hmut
      cases dcRun_one_res hdcr with
      | inl hl =>
        exfalso
        obtain ⟨heq1, ob2, hob2, htags⟩ := hl
        rw [show σ[v]? = _ from hvb] at hob2
        injection hob2 with hob2e
        subst hob2e
        cases vb <;> simp_all [mutableKind, kindTag]
      | inr hr2 =>
        obtain ⟨rr2, heq2, hge⟩ := hr2
        injection heq2 with he
        subst he
        refine ⟨hge, ?_⟩
        have hvlt : v < σ.length := readO_lt hvb
        exact fun hee => absurd (hee ▸ hge) (Nat.not_le_of_lt hvlt)
  | err e σ2 =>
    rw [hdcr] at h
    cases h

/-- Amended C5: the opaque case of `copy_value` deep-copies the value
bound to `name` in `new_globals` (see the counterexample for the claim
as stated).  When `new_globals` binds `name` at all, the result is a
faithful deep copy of that bound value: the heap changes only by
allocation (originals are unaffected), the result is structurally equal
to the bound value, and for mutable values it is a fresh object.  When
`new_globals` binds `name` to the very object handed in — as always
happens on the `copy_name` path for namespace-resolved segments — this
is a deep copy of the object handed in. -/
theorem C5_amended_deepcopy (fuel : Nat) (name : String) (orig ng : Oid)
    (clas : Option TyRef) (σ : St) (ob : Obj) (es : List (String × Oid))
    (v r : Oid) (σ' : St)
    (hro : readO σ orig = some ob) (hmisc : miscKind ob = true)
    (hng : readO σ ng = some (.dict es)) (hv : lookupL es name = some v)
    (hrun : copyValue (fuel + 1) name orig ng clas σ = .ok r σ') :
    PFrame σ σ' ∧
    dEq σ' fuel (.one v) (.one r) = true ∧
    (∀ vb, readO σ v = some vb → mutableKind vb = true →
      σ.length ≤ r ∧ r ≠ v) := by
  have hget : dictGetR ng name σ = .ok (some v) σ := by
    simp [dictGetR, readO, show σ[ng]? = _ from hng, hv]
  unfold copyValue cvRun at hrun
  rw [hro] at hrun
  cases ob
  case mockInst a => simp [miscKind] at hmisc
  case cls nm md bs d => simp [miscKind] at hmisc
  case func a b c d e f => simp [miscKind] at hmisc
  case method a b c => simp [miscKind] at hmisc
  case propertyObj a b c d => simp [miscKind] at hmisc
  all_goals
    simp only [sentObj, Bool.false_eq_true, if_false] at hrun
  all_goals
    rw [hget] at hrun
  all_goals
    dsimp only at hrun
  all_goals
    exact deepCopy_spec hrun

/-- Witness for the amended C5 at a concrete heap: the list at identity 0
bound to `x` is deep-copied into a fresh, structurally equal list. -/
theorem C5_amended_witness :
    readO [Obj.list [1], Obj.int 3, Obj.dict [("x", 0)]] 0 =
      some (.list [1]) ∧
    miscKind (Obj.list [1]) = true ∧
    (PFrame [Obj.list [1], Obj.int 3, Obj.dict [("x", 0)]]
        (copyValue 5 "x" 0 2 none
          [Obj.list [1], Obj.int 3, Obj.dict [("x", 0)]]).st ∧
      dEq (copyValue 5 "x" 0 2 none
          [Obj.list [1], Obj.int 3, Obj.dict [("x", 0)]]).st 4
          (.one 0) (.one 3) = true ∧
      (∀ vb, readO [Obj.list [1], Obj.int 3, Obj.dict [("x", 0)]] 0 =
          some vb → mutableKind vb = true → 3 ≤ 3 ∧ (3 : Oid) ≠ 0)) := by
  refine ⟨rfl, rfl, ?_⟩
  have h := C5_amended_deepcopy 4 "x" 0 2 none
    [Obj.list [1], Obj.int 3, Obj.dict [("x", 0)]] (.list [1])
    [("x", 0)] 0 3 ([Obj.list [1], Obj.int 3, Obj.dict [("x", 0)]] ++
      [Obj.list [1]]) rfl rfl rfl rfl rfl
  exact h

/-- The `copy_name` loop never changes its root once set: a run that
starts with `copy_object` already bound returns that same object on
success. -/
theorem copyNameLoop_root (fl : Nat) (ng : Oid) :
    ∀ (pairs : List (String × String)) (co : Oid) (cur : Option Oid)
      (σ : St) (r : Option Oid) (σ' : St),
      copyNameLoop fl ng pairs (some co) cur σ = .ok r σ' →
      r = some co := by
  intro pairs
  induction pairs with
  | nil =>
    intro co cur σ r σ' h
    cases h
    rfl
  | cons pq rest ih =>
    obtain ⟨pn, pp⟩ := pq
    intro co cur σ r σ' h
    simp only [copyNameLoop] at h
    repeat' split at h
    all_goals first
      | exact ih co _ _ r σ' h
      | cases h

/-- Amended C9: re-application is not behaviorally idempotent in general
(see the counterexample), but the anti-double-substitution mechanism the
claim is based on does hold: whenever the first segment of a mocked
dotted name already resolves in the namespace to a Sentinel Marker — as
it does on a second application for every class cloned by the first —
`copy_name` returns that very object by identity instead of re-cloning
it. -/
theorem C9_amended_no_reclone (fl : Nat) (ng : Oid) (pn pp : String)
    (rest : List (String × String)) (σ : St) (es : List (String × Oid))
    (c : Oid) (ob : Obj) (r : Option Oid) (σ' : St)
    (hng : readO σ ng = some (.dict es)) (hc : lookupL es pp = some c)
    (hob : readO σ c = some ob) (hsent : sentObj ob = true)
    (hrun : copyNameLoop (fl + 1) ng ((pn, pp) :: rest) none none σ =
      .ok r σ') :
    r = some c := by
  simp only [copyNameLoop] at hrun
  have hgd : dictGetR ng pp (σ ++ [Obj.mockInst []]) =
      .ok (some c) (σ ++ [Obj.mockInst []]) := by
    simp [dictGetR, readO, List.getElem?_append_left (readO_lt hng),
      show σ[ng]? = _ from hng, hc]
  simp only [alloc, getAttrM] at hrun
  rw [hgd] at hrun
  dsimp only at hrun
  simp only [Option.getD] at hrun
  have hoc : readO (σ ++ [Obj.mockInst []]) c = some ob := by
    rw [readO, List.getElem?_append_left (readO_lt hob)]
    exact hob
  rw [hoc] at hrun
  dsimp only at hrun
  rw [copyValue_sent fl pp ng _ hoc hsent] at hrun
  dsimp only at hrun
  exact copyNameLoop_root (fl + 1) ng rest c _ _ r σ' hrun

/-- Witness for the amended C9: re-resolving a name bound to a
Mock-derived class returns the class itself. -/
theorem C9_amended_witness :
    readO [Obj.dict [("C", 1)], Obj.cls "C" true [] []] 0 =
      some (.dict [("C", 1)]) ∧
    sentObj (Obj.cls "C" true [] []) = true ∧
    copyNameLoop 4 0 [("C", "C")] none none
      [Obj.dict [("C", 1)], Obj.cls "C" true [] []] =
      .ok (some 1)
        [Obj.dict [("C", 1)], Obj.cls "C" true [] [], Obj.mockInst []] ∧
    (∀ r σ', copyNameLoop 4 0 [("C", "C")] none none
        [Obj.dict [("C", 1)], Obj.cls "C" true [] []] = .ok r σ' →
      r = some 1) :=
  ⟨rfl, rfl, rfl, fun r σ' h =>
    C9_amended_no_reclone 3 0 "C" "C" []
      [Obj.dict [("C", 1)], Obj.cls "C" true [] []] [("C", 1)] 1
      (.cls "C" true [] []) r σ' rfl rfl rfl rfl h⟩

/-- Amended C6: each segment resolves by namespace-path lookup first,
else attribute lookup, else a fresh Sentinel; an unresolvable segment
itself contributes no error — it degrades to a fresh `Mock` instance,
which the dispatcher passes through untouched (third conjunct) — and for
the first segment resolution simply continues with the fresh `Mock` as
root and cursor (first conjunct).  What can still raise outward, as the
counterexample shows, is attaching a later segment to a cursor that
rejects attribute assignment. -/
theorem C6_amended_mock_substitution (fl : Nat) (ng : Oid) (pn pp : String)
    (rest : List (String × String)) (σ : St) (es : List (String × Oid))
    (hng : readO σ ng = some (.dict es)) (hpp : lookupL es pp = none) :
    copyNameLoop (fl + 1) ng ((pn, pp) :: rest) none none σ =
      copyNameLoop (fl + 1) ng rest (some σ.length) (some σ.length)
        (σ ++ [Obj.mockInst []]) ∧
    readO (σ ++ [Obj.mockInst []]) σ.length = some (.mockInst []) ∧
    ∀ (m ngx : Oid) (σm : St) (clasx : Option TyRef) (nm2 : String)
      (attrs : List (String × Oid)),
      readO σm m = some (.mockInst attrs) →
      copyValue (fl + 1) nm2 m ngx clasx σm = .ok m σm := by
  have hm : readO (σ ++ [Obj.mockInst []]) σ.length =
      some (.mockInst []) := by
    rw [readO]
    exact List.getElem?_concat_length ..
  refine ⟨?_, hm, fun m ngx σm clasx nm2 attrs hr =>
    copyValue_sent fl nm2 ngx clasx hr rfl⟩
  have hgd : dictGetR ng pp (σ ++ [Obj.mockInst []]) =
      .ok none (σ ++ [Obj.mockInst []]) := by
    simp [dictGetR, readO, List.getElem?_append_left (readO_lt hng),
      show σ[ng]? = _ from hng, hpp]
  conv_lhs => rw [copyNameLoop]
  simp only [alloc, getAttrM]
  rw [hgd]
  dsimp only
  simp only [Option.getD]
  rw [hm]
  dsimp only
  rw [copyValue_sent fl pp ng _ hm rfl]

/-- Witness for the amended C6: resolving the single-segment name `Z`,
absent from the namespace, degrades to a fresh `Mock` and raises no
error. -/
theorem C6_amended_witness :
    readO [Obj.dict []] 0 = some (.dict []) ∧
    lookupL ([] : List (String × Oid)) "Z" = none ∧
    (copyNameLoop 4 0 [("Z", "Z")] none none [Obj.dict []] =
      copyNameLoop 4 0 [] (some 1) (some 1) [Obj.dict [], Obj.mockInst []] ∧
    readO [Obj.dict [], Obj.mockInst []] 1 = some (.mockInst []) ∧
    ∀ (m ngx : Oid) (σm : St) (clasx : Option TyRef) (nm2 : String)
      (attrs : List (String × Oid)),
      readO σm m = some (.mockInst attrs) →
      copyValue 4 nm2 m ngx clasx σm = .ok m σm) :=
  ⟨rfl, rfl,
    C6_amended_mock_substitution 3 0 "Z" "Z" [] [Obj.dict []] [] rfl rfl⟩


/-! ### Frame and freshness lemmas for the plain-callable cloners -/

/-- `copy_function` only allocates: every pre-existing cell is
untouched. -/
theorem copyFunction_pframe (f : Oid) (ng : Option Oid) (σ : St) :
    PFrame σ (copyFunction f ng σ).st := by
  unfold copyFunction
  split
  · split
    · cases ng with
      | none =>
        dsimp only
        simp only [alloc, writeO, Res.st]
        refine ⟨?_, fun i hi => ?_⟩
        · simp
        · rw [List.getElem?_set_ne (by simp; omega),
            List.getElem?_set_ne (by simp; omega),
            List.getElem?_append_left (by simp; omega)]
          exact List.getElem?_append_left hi
      | some nd =>
        dsimp only
        split
        · simp only [alloc, writeO, Res.st]
          refine ⟨?_, fun i hi => ?_⟩
          · simp
          · rw [List.getElem?_set_ne (by simp; omega),
              List.getElem?_set_ne (by simp; omega),
              List.getElem?_append_left (by simp; omega)]
            exact List.getElem?_append_left hi
        · rename_i hne
          split at hne
          · cases hne
          · injection hne with h1 h2
            rw [← h2]
            exact pframe_refl σ
    · exact pframe_refl σ
  · exact pframe_refl σ

/-- A successful `copy_function` returns a freshly allocated identity. -/
theorem copyFunction_fresh {f : Oid} {ng : Option Oid} {σ : St} {r : Oid}
    {σ' : St} (h : copyFunction f ng σ = .ok r σ') : σ.length ≤ r := by
  unfold copyFunction at h
  split at h
  · split at h
    · cases ng with
      | none =>
        dsimp only at h
        simp only [alloc] at h
        injection h with h1 h2
        rw [← h1]
        simp
      | some nd =>
        dsimp only at h
        split at h
        · simp only [alloc] at h
          injection h with h1 h2
          rw [← h1]
          simp
        · cases h
    · cases h
  · cases h

theorem copyClassmethod_pframe (m ng : Oid) (σ : St) :
    PFrame σ (copyClassmethod m ng σ).st := by
  unfold copyClassmethod
  split
  · rename_i imF imS imC hro
    cases hcf : copyFunction imF (some ng) σ with
    | ok f' σ' =>
      have hx := copyFunction_pframe imF (some ng) σ
      rw [hcf] at hx
      exact pframe_trans hx (pframe_alloc σ' _)
    | err e σ' =>
      have hx := copyFunction_pframe imF (some ng) σ
      rw [hcf] at hx
      exact hx
  · exact pframe_refl σ

theorem copyClassmethod_fresh {m ng : Oid} {σ : St} {r : Oid} {σ' : St}
    (h : copyClassmethod m ng σ = .ok r σ') : σ.length ≤ r := by
  unfold copyClassmethod at h
  split at h
  · rename_i imF imS imC hro
    split at h
    · rename_i f' σ1 hcf
      simp only [alloc] at h
      injection h with h1 h2
      have hx := copyFunction_pframe imF (some ng) σ
      rw [hcf] at hx
      rw [← h1]
      exact hx.1
    · cases h
  · cases h

theorem copyMethod_pframe (m : Oid) (clas : Option TyRef) (ng : Oid) (σ : St) :
    PFrame σ (copyMethod m clas ng σ).st := by
  unfold copyMethod
  split
  · rename_i imF imS imC hro
    cases hcf : copyFunction imF (some ng) σ with
    | ok f' σ' =>
      have hx := copyFunction_pframe imF (some ng) σ
      rw [hcf] at hx
      exact pframe_trans hx (pframe_alloc σ' _)
    | err e σ' =>
      have hx := copyFunction_pframe imF (some ng) σ
      rw [hcf] at hx
      exact hx
  · exact pframe_refl σ

theorem copyMethod_fresh {m : Oid} {clas : Option TyRef} {ng : Oid} {σ : St}
    {r : Oid} {σ' : St} (h : copyMethod m clas ng σ = .ok r σ') :
    σ.length ≤ r := by
  unfold copyMethod at h
  split at h
  · rename_i imF imS imC hro
    split at h
    · rename_i f' σ1 hcf
      simp only [alloc] at h
      injection h with h1 h2
      have hx := copyFunction_pframe imF (some ng) σ
      rw [hcf] at hx
      rw [← h1]
      exact hx.1
    · cases h
  · cases h

theorem copyStaticmethod_pframe (f ng : Oid) (σ : St) :
    PFrame σ (copyStaticmethod f ng σ).st := by
  unfold copyStaticmethod
  cases hcf : copyFunction f (some ng) σ with
  | ok f' σ' =>
    have hx := copyFunction_pframe f (some ng) σ
    rw [hcf] at hx
    exact pframe_trans hx (pframe_alloc σ' _)
  | err e σ' =>
    have hx := copyFunction_pframe f (some ng) σ
    rw [hcf] at hx
    exact hx

theorem copyStaticmethod_fresh {f ng : Oid} {σ : St} {r : Oid} {σ' : St}
    (h : copyStaticmethod f ng σ = .ok r σ') : σ.length ≤ r := by
  unfold copyStaticmethod at h
  split at h
  · rename_i f' σ1 hcf
    simp only [alloc] at h
    injection h with h1 h2
    have hx := copyFunction_pframe f (some ng) σ
    rw [hcf] at hx
    rw [← h1]
    exact hx.1
  · cases h

theorem copyProperty_pframe (p ng : Oid) (σ : St) :
    PFrame σ (copyProperty p ng σ).st := by
  unfold copyProperty
  split
  · rename_i fg fs fd doc hro
    dsimp only
    cases fg with
    | none =>
      dsimp only
      cases fs with
      | none =>
        dsimp only
        cases fd with
        | none => exact pframe_alloc σ _
        | some f3 =>
          dsimp only
          cases hc3 : copyFunction f3 (some ng) σ with
          | ok f3' σ3 =>
            have hx := copyFunction_pframe f3 (some ng) σ
            rw [hc3] at hx
            exact pframe_trans hx (pframe_alloc σ3 _)
          | err e σ3 =>
            have hx := copyFunction_pframe f3 (some ng) σ
            rw [hc3] at hx
            exact hx
      | some f2 =>
        dsimp only
        cases hc2 : copyFunction f2 (some ng) σ with
        | ok f2' σ2 =>
          have hx2 := copyFunction_pframe f2 (some ng) σ
          rw [hc2] at hx2
          dsimp only
          cases fd with
          | none => exact pframe_trans hx2 (pframe_alloc σ2 _)
          | some f3 =>
            dsimp only
            cases hc3 : copyFunction f3 (some ng) σ2 with
            | ok f3' σ3 =>
              have hx3 := copyFunction_pframe f3 (some ng) σ2
              rw [hc3] at hx3
              exact pframe_trans hx2 (pframe_trans hx3 (pframe_alloc σ3 _))
            | err e σ3 =>
              have hx3 := copyFunction_pframe f3 (some ng) σ2
              rw [hc3] at hx3
              exact pframe_trans hx2 hx3
        | err e σ2 =>
          have hx2 := copyFunction_pframe f2 (some ng) σ
          rw [hc2] at hx2
          exact hx2
    | some f1 =>
      dsimp only
      cases hc1 : copyFunction f1 (some ng) σ with
      | ok f1' σ1 =>
        have hx1 := copyFunction_pframe f1 (some ng) σ
        rw [hc1] at hx1
        dsimp only
        cases fs with
        | none =>
          dsimp only
          cases fd with
          | none => exact pframe_trans hx1 (pframe_alloc σ1 _)
          | some f3 =>
            dsimp only
            cases hc3 : copyFunction f3 (some ng) σ1 with
            | ok f3' σ3 =>
              have hx3 := copyFunction_pframe f3 (some ng) σ1
              rw [hc3] at hx3
              exact pframe_trans hx1 (pframe_trans hx3 (pframe_alloc σ3 _))
            | err e σ3 =>
              have hx3 := copyFunction_pframe f3 (some ng) σ1
              rw [hc3] at hx3
              exact pframe_trans hx1 hx3
        | some f2 =>
          dsimp only
          cases hc2 : copyFunction f2 (some ng) σ1 with
          | ok f2' σ2 =>
            have hx2 := copyFunction_pframe f2 (some ng) σ1
            rw [hc2] at hx2
            dsimp only
            cases fd with
            | none => exact pframe_trans hx1 (pframe_trans hx2 (pframe_alloc σ2 _))
            | some f3 =>
              dsimp only
              cases hc3 : copyFunction f3 (some ng) σ2 with
              | ok f3' σ3 =>
                have hx3 := copyFunction_pframe f3 (some ng) σ2
                rw [hc3] at hx3
                exact pframe_trans hx1
                  (pframe_trans hx2 (pframe_trans hx3 (pframe_alloc σ3 _)))
              | err e σ3 =>
                have hx3 := copyFunction_pframe f3 (some ng) σ2
                rw [hc3] at hx3
                exact pframe_trans hx1 (pframe_trans hx2 hx3)
          | err e σ2 =>
            have hx2 := copyFunction_pframe f2 (some ng) σ1
            rw [hc2] at hx2
            exact pframe_trans hx1 hx2
      | err e σ1 =>
        have hx1 := copyFunction_pframe f1 (some ng) σ
        rw [hc1] at hx1
        exact hx1
  · exact pframe_refl σ

theorem copyProperty_fresh {p ng : Oid} {σ : St} {r : Oid} {σ' : St}
    (h : copyProperty p ng σ = .ok r σ') : σ.length ≤ r := by
  have hpf := copyProperty_pframe p ng σ
  rw [h] at hpf
  unfold copyProperty at h
  split at h
  · rename_i fg fs fd doc hro
    dsimp only at h
    split at h
    · rename_i fg' σ1 hs1
      split at h
      · rename_i fs' σ2 hs2
        split at h
        · rename_i fd' σ3 hs3
          simp only [alloc] at h
          injection h with hr1 hr2
          rw [← hr1]
          -- r is the length of the heap at the final allocation, which
          -- contains every original cell
          have hl1 : σ.length ≤ σ1.length := by
            cases fg with
            | none =>
              dsimp only at hs1
              injection hs1 with h1a h1b
              rw [← h1b]
            | some f1 =>
              dsimp only at hs1
              split at hs1
              · rename_i f1' σ1' hc1
                injection hs1 with h1a h1b
                have hx := copyFunction_pframe f1 (some ng) σ
                rw [hc1] at hx
                rw [← h1b]
                exact hx.1
              · cases hs1
          have hl2 : σ1.length ≤ σ2.length := by
            cases fs with
            | none =>
              dsimp only at hs2
              injection hs2 with h2a h2b
              rw [← h2b]
            | some f2 =>
              dsimp only at hs2
              split at hs2
              · rename_i f2' σ2' hc2
                injection hs2 with h2a h2b
                have hx := copyFunction_pframe f2 (some ng) σ1
                rw [hc2] at hx
                rw [← h2b]
                exact hx.1
              · cases hs2
          have hl3 : σ2.length ≤ σ3.length := by
            cases fd with
            | none =>
              dsimp only at hs3
              injection hs3 with h3a h3b
              rw [← h3b]
            | some f3 =>
              dsimp only at hs3
              split at hs3
              · rename_i f3' σ3' hc3
                injection hs3 with h3a h3b
                have hx := copyFunction_pframe f3 (some ng) σ2
                rw [hc3] at hx
                rw [← h3b]
                exact hx.1
              · cases hs3
          exact Nat.le_trans hl1 (Nat.le_trans hl2 hl3)
        · cases h
      · cases h
    · cases h
  · cases h

/-- `copy_callable` only allocates: every pre-existing cell is
untouched. -/
theorem copyCallable_pframe (name : String) (orig ng : Oid)
    (clas : Option TyRef) (σ : St) :
    PFrame σ (copyCallable name orig ng clas σ).st := by
  unfold copyCallable
  split
  · split
    · exact copyClassmethod_pframe orig ng σ
    · exact copyMethod_pframe orig clas ng σ
  · split
    · rename_i c
      cases hga : getAttrM (some c) name σ with
      | mk a? σ1 =>
        have hpf := getAttrM_pframe (some c) name σ
        rw [hga] at hpf
        cases a? with
        | none =>
          dsimp only
          exact pframe_trans hpf (copyFunction_pframe orig (some ng) σ1)
        | some a =>
          dsimp only
          split
          · exact pframe_trans hpf (copyStaticmethod_pframe orig ng σ1)
          · exact pframe_trans hpf (copyFunction_pframe orig (some ng) σ1)
    · exact copyFunction_pframe orig (some ng) σ
  · exact pframe_refl σ
  · exact pframe_refl σ

/-- On a function or method input, `copy_callable` always returns a
freshly allocated identity. -/
theorem copyCallable_fresh {name : String} {orig ng : Oid}
    {clas : Option TyRef} {σ : St} {ob : Obj} {r : Oid} {σ' : St}
    (hro : readO σ orig = some ob) (hck : isCallableKind ob = true)
    (h : copyCallable name orig ng clas σ = .ok r σ') : σ.length ≤ r := by
  unfold copyCallable at h
  rw [hro] at h
  cases ob with
  | method imF imS imC =>
    dsimp only at h
    by_cases his : imS.isSome
    · rw [if_pos his] at h
      exact copyClassmethod_fresh h
    · rw [if_neg his] at h
      exact copyMethod_fresh h
  | func code g defs nm doc fattrs =>
    dsimp only at h
    split at h
    · rename_i c
      cases hga : getAttrM (some c) name σ with
      | mk a? σ1 =>
        rw [hga] at h
        have hpf := getAttrM_pframe (some c) name σ
        rw [hga] at hpf
        cases a? with
        | none =>
          dsimp only at h
          exact Nat.le_trans hpf.1 (copyFunction_fresh h)
        | some a =>
          dsimp only at h
          split at h
          · exact Nat.le_trans hpf.1 (copyStaticmethod_fresh h)
          · exact Nat.le_trans hpf.1 (copyFunction_fresh h)
    · exact copyFunction_fresh h
  | int n => simp [isCallableKind] at hck
  | str s => simp [isCallableKind] at hck
  | list es => simp [isCallableKind] at hck
  | dict es => simp [isCallableKind] at hck
  | cls nm md bases d => simp [isCallableKind] at hck
  | classmethodObj f2 => simp [isCallableKind] at hck
  | staticmethodObj f2 => simp [isCallableKind] at hck
  | propertyObj fg fs fd doc => simp [isCallableKind] at hck
  | mockInst attrs => simp [isCallableKind] at hck

/-! ### The master frame property of the cloner core -/

/-- Frame property of every work item of the cloner core: `copy_value`
and `copy_class` mutate no pre-existing cell except the shared
`new_globals` dictionary; the attribute loop and its single step
additionally mutate only the class clone under construction; and no
pre-existing cell ever changes its kind. -/
theorem cvRun_frame (ng : Oid) : ∀ fuel : Nat,
    (∀ (name : String) (orig : Oid) (clas : Option TyRef) (σ : St),
      GFrame ng σ (cvRun ng fuel (.value name orig clas) σ).st) ∧
    (∀ (c : Oid) (σ : St), GFrame ng σ (cvRun ng fuel (.klass c) σ).st) ∧
    (∀ (c' : Oid) (names : List String) (σ : St),
      GFrame2 ng c' σ (cvRun ng fuel (.attrs c' names) σ).st) ∧
    (∀ (c' : Oid) (n : String) (σ : St),
      GFrame2 ng c' σ (cvRun ng fuel (.astep c' n) σ).st) := by
  intro fuel
  induction fuel with
  | zero =>
    exact ⟨fun _ _ _ σ => gframe_refl ng σ, fun _ σ => gframe_refl ng σ,
      fun _ _ σ => gframe2_of_gframe (gframe_refl ng σ),
      fun _ _ σ => gframe2_of_gframe (gframe_refl ng σ)⟩
  | succ fl ih =>
    obtain ⟨ihv, ihk, iha, ihs⟩ := ih
    refine ⟨?_, ?_, ?_, ?_⟩
    · -- copy_value dispatch
      intro name orig clas σ
      cases hro : readO σ orig with
      | none =>
        simp only [cvRun, hro]
        exact gframe_refl ng σ
      | some ob =>
        cases ob with
        | mockInst attrs =>
          simp only [cvRun, hro]
          rw [if_pos (by simp [sentObj])]
          exact gframe_refl ng σ
        | cls nm md bases d =>
          simp only [cvRun, hro]
          cases md with
          | true =>
            rw [if_pos (by simp [sentObj])]
            exact gframe_refl ng σ
          | false =>
            rw [if_neg (by simp [sentObj])]
            exact ihk orig σ
        | func code g defs nm doc fattrs =>
          simp only [cvRun, hro]
          rw [if_neg (by simp [sentObj])]
          exact gframe_of_pframe (copyCallable_pframe name orig ng clas σ)
        | method imF imS imC =>
          simp only [cvRun, hro]
          rw [if_neg (by simp [sentObj])]
          exact gframe_of_pframe (copyCallable_pframe name orig ng clas σ)
        | propertyObj fg fs fd doc =>
          simp only [cvRun, hro]
          rw [if_neg (by simp [sentObj])]
          exact gframe_of_pframe (copyProperty_pframe orig ng σ)
        | int v =>
          simp only [cvRun, hro]
          rw [if_neg (by simp [sentObj])]
          cases hdg : dictGetR ng name σ with
          | ok v? σ1 =>
            have hst : σ1 = σ := by
              have := dictGetR_st ng name σ
              rw [hdg] at this
              exact this
            subst hst
            cases v? with
            | none => exact gframe_refl ng σ1
            | some v =>
              dsimp only
              exact gframe_of_pframe (deepCopy_pframe fl v σ1)
          | err e σ1 =>
            have hst : σ1 = σ := by
              have := dictGetR_st ng name σ
              rw [hdg] at this
              exact this
            subst hst
            exact gframe_refl ng σ1
        | str s =>
          simp only [cvRun, hro]
          rw [if_neg (by simp [sentObj])]
          cases hdg : dictGetR ng name σ with
          | ok v? σ1 =>
            have hst : σ1 = σ := by
              have := dictGetR_st ng name σ
              rw [hdg] at this
              exact this
            subst hst
            cases v? with
            | none => exact gframe_refl ng σ1
            | some v =>
              dsimp only
              exact gframe_of_pframe (deepCopy_pframe fl v σ1)
          | err e σ1 =>
            have hst : σ1 = σ := by
              have := dictGetR_st ng name σ
              rw [hdg] at this
              exact this
            subst hst
            exact gframe_refl ng σ1
        | list es =>
          simp only [cvRun, hro]
          rw [if_neg (by simp [sentObj])]
          cases hdg : dictGetR ng name σ with
          | ok v? σ1 =>
            have hst : σ1 = σ := by
              have := dictGetR_st ng name σ
              rw [hdg] at this
              exact this
            subst hst
            cases v? with
            | none => exact gframe_refl ng σ1
            | some v =>
              dsimp only
              exact gframe_of_pframe (deepCopy_pframe fl v σ1)
          | err e σ1 =>
            have hst : σ1 = σ := by
              have := dictGetR_st ng name σ
              rw [hdg] at this
              exact this
            subst hst
            exact gframe_refl ng σ1
        | dict es =>
          simp only [cvRun, hro]
          rw [if_neg (by simp [sentObj])]
          cases hdg : dictGetR ng name σ with
          | ok v? σ1 =>
            have hst : σ1 = σ := by
              have := dictGetR_st ng name σ
              rw [hdg] at this
              exact this
            subst hst
            cases v? with
            | none => exact gframe_refl ng σ1
            | some v =>
              dsimp only
              exact gframe_of_pframe (deepCopy_pframe fl v σ1)
          | err e σ1 =>
            have hst : σ1 = σ := by
              have := dictGetR_st ng name σ
              rw [hdg] at this
              exact this
            subst hst
            exact gframe_refl ng σ1
        | classmethodObj f2 =>
          simp only [cvRun, hro]
          rw [if_neg (by simp [sentObj])]
          cases hdg : dictGetR ng name σ with
          | ok v? σ1 =>
            have hst : σ1 = σ := by
              have := dictGetR_st ng name σ
              rw [hdg] at this
              exact this
            subst hst
            cases v? with
            | none => exact gframe_refl ng σ1
            | some v =>
              dsimp only
              exact gframe_of_pframe (deepCopy_pframe fl v σ1)
          | err e σ1 =>
            have hst : σ1 = σ := by
              have := dictGetR_st ng name σ
              rw [hdg] at this
              exact this
            subst hst
            exact gframe_refl ng σ1
        | staticmethodObj f2 =>
          simp only [cvRun, hro]
          rw [if_neg (by simp [sentObj])]
          cases hdg : dictGetR ng name σ with
          | ok v? σ1 =>
            have hst : σ1 = σ := by
              have := dictGetR_st ng name σ
              rw [hdg] at this
              exact this
            subst hst
            cases v? with
            | none => exact gframe_refl ng σ1
            | some v =>
              dsimp only
              exact gframe_of_pframe (deepCopy_pframe fl v σ1)
          | err e σ1 =>
            have hst : σ1 = σ := by
              have := dictGetR_st ng name σ
              rw [hdg] at this
              exact this
            subst hst
            exact gframe_refl ng σ1
    · -- copy_class
      intro c σ
      cases hro : readO σ c with
      | none =>
        simp only [cvRun, hro]
        exact gframe_refl ng σ
      | some ob =>
        cases ob with
        | cls nm md bases d =>
          simp only [cvRun, hro]
          cases md with
          | true =>
            rw [if_pos rfl]
            exact gframe_refl ng σ
          | false =>
            rw [if_neg (by simp)]
            simp only [alloc]
            have hpa : PFrame σ (σ ++ [Obj.cls nm true bases d]) :=
              pframe_alloc σ _
            cases hds : dictSetR ng nm σ.length (σ ++ [Obj.cls nm true bases d]) with
            | ok u σ2 =>
              have hg1 : GFrame ng (σ ++ [Obj.cls nm true bases d]) σ2 := by
                have := @dictSetR_gframe ng nm σ.length
                  (σ ++ [Obj.cls nm true bases d])
                rw [hds] at this
                exact this
              have hgσ2 : GFrame ng σ σ2 :=
                gframe_trans (gframe_of_pframe hpa) hg1
              dsimp only
              cases hat : cvRun ng fl
                  (.attrs σ.length (sortStrings (d.map Prod.fst))) σ2 with
              | ok u2 σ3 =>
                dsimp only [Res.st]
                have hg2 := iha σ.length (sortStrings (d.map Prod.fst)) σ2
                rw [hat] at hg2
                simp only [Res.st] at hg2
                refine ⟨Nat.le_trans hgσ2.1 hg2.1, fun i hi hng => ?_,
                  kindPres_trans hgσ2.1 hgσ2.2.2 hg2.2.2⟩
                rw [hg2.2.1 i (Nat.lt_of_lt_of_le hi hgσ2.1) hng
                    (Nat.ne_of_lt hi),
                  hgσ2.2.1 i hi hng]
              | err e σ3 =>
                dsimp only [Res.st]
                have hg2 := iha σ.length (sortStrings (d.map Prod.fst)) σ2
                rw [hat] at hg2
                simp only [Res.st] at hg2
                refine ⟨Nat.le_trans hgσ2.1 hg2.1, fun i hi hng => ?_,
                  kindPres_trans hgσ2.1 hgσ2.2.2 hg2.2.2⟩
                rw [hg2.2.1 i (Nat.lt_of_lt_of_le hi hgσ2.1) hng
                    (Nat.ne_of_lt hi),
                  hgσ2.2.1 i hi hng]
            | err e σ2 =>
              have hse : σ2 = σ ++ [Obj.cls nm true bases d] :=
                dictSetR_err hds
              rw [hse]
              exact gframe_of_pframe hpa
        | int v => simp only [cvRun, hro]; exact gframe_refl ng σ
        | str s => simp only [cvRun, hro]; exact gframe_refl ng σ
        | list es => simp only [cvRun, hro]; exact gframe_refl ng σ
        | dict es => simp only [cvRun, hro]; exact gframe_refl ng σ
        | func code g defs nm doc fattrs =>
          simp only [cvRun, hro]; exact gframe_refl ng σ
        | method imF imS imC => simp only [cvRun, hro]; exact gframe_refl ng σ
        | classmethodObj f2 => simp only [cvRun, hro]; exact gframe_refl ng σ
        | staticmethodObj f2 => simp only [cvRun, hro]; exact gframe_refl ng σ
        | propertyObj fg fs fd doc =>
          simp only [cvRun, hro]; exact gframe_refl ng σ
        | mockInst attrs => simp only [cvRun, hro]; exact gframe_refl ng σ
    · -- the attribute loop
      intro c' names σ
      cases names with
      | nil =>
        simp only [cvRun]
        exact gframe2_of_gframe (gframe_refl ng σ)
      | cons n rest =>
        simp only [cvRun]
        cases hstep : cvRun ng fl (.astep c' n) σ with
        | ok u σ' =>
          have h1 := ihs c' n σ
          rw [hstep] at h1
          have h2 := iha c' rest σ'
          exact gframe2_trans h1 h2
        | err e σ' =>
          have h1 := ihs c' n σ
          rw [hstep] at h1
          dsimp only
          cases hc : catchable e with
          | true =>
            rw [if_pos rfl]
            exact gframe2_trans h1 (iha c' rest σ')
          | false =>
            rw [if_neg (by simp)]
            exact h1
    · -- one step of the attribute loop
      intro c' n σ
      simp only [cvRun]
      cases hga : getAttrM (some c') n σ with
      | mk v? σ1 =>
        have hpf := getAttrM_pframe (some c') n σ
        rw [hga] at hpf
        cases v? with
        | none =>
          dsimp only
          exact gframe2_of_gframe (gframe_of_pframe hpf)
        | some v =>
          dsimp only
          cases hv : cvRun ng fl (.value n v (some (.ofCls c'))) σ1 with
          | ok v' σ2 =>
            have h1 := ihv n v (some (.ofCls c')) σ1
            rw [hv] at h1
            dsimp only
            cases hsa : setAttrM c' n v' σ2 with
            | ok u σ3 =>
              dsimp only [Res.st]
              obtain ⟨hl3, hne3, hk3, husn⟩ := setAttrM_ok hsa
              simp only [Res.st] at h1
              refine gframe2_trans (gframe2_of_gframe (gframe_of_pframe hpf))
                (gframe2_trans (gframe2_of_gframe h1)
                  ⟨Nat.le_of_eq hl3.symm, ?_, ?_⟩)
              · intro i hi hng hc
                exact hne3 i hc
              · intro i hi
                by_cases hic : i = c'
                · rw [hic]
                  exact hk3
                · rw [hne3 i hic]
            | err e σ3 =>
              dsimp only [Res.st]
              have hse : σ3 = σ2 := setAttrM_err hsa
              rw [hse]
              exact gframe2_trans (gframe2_of_gframe (gframe_of_pframe hpf))
                (gframe2_of_gframe h1)
          | err e σ2 =>
            have h1 := ihv n v (some (.ofCls c')) σ1
            rw [hv] at h1
            exact gframe2_trans (gframe2_of_gframe (gframe_of_pframe hpf))
              (gframe2_of_gframe h1)

/-! ### Result classification for the cloner -/

/-- A successful `copy_class` always returns a Sentinel Marker: either
the input class already derived from `Mock`, or the fresh clone, which is
built with `Mock` prepended to its bases. -/
theorem cvRun_klass_res {ng : Oid} {fl : Nat} {c : Oid} {σ σ' : St} {r : Oid}
    (h : cvRun ng fl (.klass c) σ = .ok r σ') : sentAtB σ' r = true := by
  cases fl with
  | zero => cases h
  | succ fl =>
    simp only [cvRun] at h
    split at h
    · rename_i nm md bases d hro
      cases md with
      | true =>
        rw [if_pos rfl] at h
        injection h with h1 h2
        rw [← h1, ← h2]
        simp [sentAtB, show σ[c]? = _ from hro, sentObj]
      | false =>
        rw [if_neg (by simp)] at h
        simp only [alloc] at h
        split at h
        · rename_i u σ2 hds
          split at h
          · rename_i u2 σ3 hat
            injection h with h1 h2
            rw [← h1, ← h2]
            -- the clone keeps its Mock-derived kind through the write
            -- of new_globals and the attribute loop
            have hg1 : GFrame ng (σ ++ [Obj.cls nm true bases d]) σ2 := by
              have := @dictSetR_gframe ng nm σ.length
                (σ ++ [Obj.cls nm true bases d])
              rw [hds] at this
              exact this
            have hg2 := ((cvRun_frame ng fl).2.2.1) σ.length
              (sortStrings (d.map Prod.fst)) σ2
            rw [hat] at hg2
            simp only [Res.st] at hg2
            have hlt : σ.length < (σ ++ [Obj.cls nm true bases d]).length := by
              simp
            have hk : kindPres (σ ++ [Obj.cls nm true bases d]) σ3 :=
              kindPres_trans hg1.1 hg1.2.2 hg2.2.2
            rw [sentAtB_of_kindPres hlt hk]
            simp [sentAtB, List.getElem?_concat_length, sentObj]
          · cases h
        · cases h
    · cases h

/-- Unwrapping `deepcopy` to the engine. -/
theorem deepCopy_run {fl : Nat} {v : Oid} {σ : St} {r : Oid} {σ' : St}
    (h : deepCopy fl v σ = .ok r σ') : dcRun fl (.one v) σ = .ok (.one r) σ' := by
  unfold deepCopy at h
  split at h
  · rename_i r0 σ0 heq
    injection h with h1 h2
    rw [← h1, ← h2]
    exact heq
  · cases h
  · cases h

/-- Result classification for the opaque (deep-copy) case of
`copy_value`: the result is fresh, or it is the original object itself,
which in the opaque case always rejects attribute assignment. -/
theorem misc_value_res {ng : Oid} {fl : Nat} {name : String} {orig : Oid}
    {σ σ1 σ' : St} {ob : Obj} {v r : Oid}
    (hro : readO σ orig = some ob)
    (hng : ∀ es v0, readO σ ng = some (.dict es) → lookupL es name = some v0 →
      v0 = orig)
    (h : deepCopy fl v σ1 = .ok r σ')
    (hdg : dictGetR ng name σ = .ok (some v) σ1)
    (hun : unsettableAt σ orig = true) :
    σ.length ≤ r ∨ sentAtB σ' r = true ∨ unsettableAt σ' r = true := by
  unfold dictGetR at hdg
  split at hdg
  · rename_i es hre
    injection hdg with h1 h2
    have hv : v = orig := hng es v hre h1
    rw [← h2] at h
    rw [hv] at h
    have hrun := deepCopy_run h
    rcases dcRun_one_res hrun with ⟨hy, ob2, hcell, hkind⟩ | ⟨r0, hy, hfresh⟩
    · -- the copy is the original object itself
      injection hy with hy1
      rw [hy1]
      have hpres := dcRun_pres hrun orig (readO_lt hro)
      refine Or.inr (Or.inr ?_)
      unfold unsettableAt at hun ⊢
      rw [hpres]
      exact hun
    · injection hy with hy1
      rw [← hy1] at hfresh
      exact Or.inl hfresh
  · cases hdg

/-- The value a successful `copy_value` returns is always admissible as a
`copy_name` cursor: a freshly allocated object, a Sentinel Marker, or an
object that rejects attribute assignment — provided the namespace, if it
binds the name at all, binds it to the object being cloned (as is the
case at every `copy_name` call site). -/
theorem cvRun_value_res {ng : Oid} {fl : Nat} {name : String} {orig : Oid}
    {clas : Option TyRef} {σ σ' : St} {r : Oid}
    (h : cvRun ng fl (.value name orig clas) σ = .ok r σ')
    (hng : ∀ es v, readO σ ng = some (.dict es) → lookupL es name = some v →
      v = orig) :
    σ.length ≤ r ∨ sentAtB σ' r = true ∨ unsettableAt σ' r = true := by
  cases fl with
  | zero => cases h
  | succ fl =>
    simp only [cvRun] at h
    split at h
    · cases h
    · rename_i ob hro
      by_cases hs : sentObj ob = true
      · rw [if_pos hs] at h
        injection h with h1 h2
        rw [← h1, ← h2]
        exact Or.inr (Or.inl (by simp [sentAtB, show σ[orig]? = _ from hro, hs]))
      · rw [if_neg hs] at h
        cases ob with
        | mockInst attrs => simp [sentObj] at hs
        | cls nm md bases d => exact Or.inr (Or.inl (cvRun_klass_res h))
        | func code g defs nm doc fattrs =>
          exact Or.inl (copyCallable_fresh hro (by simp [isCallableKind]) h)
        | method imF imS imC =>
          exact Or.inl (copyCallable_fresh hro (by simp [isCallableKind]) h)
        | propertyObj fg fs fd doc => exact Or.inl (copyProperty_fresh h)
        | int n =>
          dsimp only at h
          split at h
          · rename_i v σ1 hdg
            exact misc_value_res hro hng h hdg (by simp [unsettableAt, show σ[orig]? = _ from hro])
          · cases h
          · cases h
        | str s =>
          dsimp only at h
          split at h
          · rename_i v σ1 hdg
            exact misc_value_res hro hng h hdg (by simp [unsettableAt, show σ[orig]? = _ from hro])
          · cases h
          · cases h
        | list es =>
          dsimp only at h
          split at h
          · rename_i v σ1 hdg
            exact misc_value_res hro hng h hdg (by simp [unsettableAt, show σ[orig]? = _ from hro])
          · cases h
          · cases h
        | dict es =>
          dsimp only at h
          split at h
          · rename_i v σ1 hdg
            exact misc_value_res hro hng h hdg (by simp [unsettableAt, show σ[orig]? = _ from hro])
          · cases h
          · cases h
        | classmethodObj f2 =>
          dsimp only at h
          split at h
          · rename_i v σ1 hdg
            exact misc_value_res hro hng h hdg (by simp [unsettableAt, show σ[orig]? = _ from hro])
          · cases h
          · cases h
        | staticmethodObj f2 =>
          dsimp only at h
          split at h
          · rename_i v σ1 hdg
            exact misc_value_res hro hng h hdg (by simp [unsettableAt, show σ[orig]? = _ from hro])
          · cases h
          · cases h

/-- A failing iteration of the class-attribute loop leaves every
pre-existing cell other than the shared `new_globals` dictionary — in
particular the class clone and its attribute bindings — unchanged. -/
theorem cvRun_astep_err {ng : Oid} {fl : Nat} {c' : Oid} {an : String}
    {σ σe : St} {e : PyErr}
    (h : cvRun ng fl (.astep c' an) σ = .err e σe) :
    ∀ i, i < σ.length → i ≠ ng → σe[i]? = σ[i]? := by
  cases fl with
  | zero =>
    injection h with h1 h2
    rw [← h2]
    exact fun i _ _ => rfl
  | succ fl =>
    simp only [cvRun] at h
    cases hga : getAttrM (some c') an σ with
    | mk v? σ1 =>
      rw [hga] at h
      have hpf := getAttrM_pframe (some c') an σ
      rw [hga] at hpf
      cases v? with
      | none =>
        dsimp only at h
        injection h with h1 h2
        rw [← h2]
        exact fun i hi _ => hpf.2 i hi
      | some v =>
        dsimp only at h
        cases hcv : cvRun ng fl (.value an v (some (.ofCls c'))) σ1 with
        | ok v' σ2 =>
          rw [hcv] at h
          have hgf := (cvRun_frame ng fl).1 an v (some (.ofCls c')) σ1
          rw [hcv] at hgf
          simp only [Res.st] at hgf
          dsimp only at h
          cases hsa : setAttrM c' an v' σ2 with
          | ok u σ3 =>
            rw [hsa] at h
            cases h
          | err e2 σ3 =>
            rw [hsa] at h
            injection h with h1 h2
            rw [← h2]
            have hse : σ3 = σ2 := setAttrM_err hsa
            intro i hi hng
            rw [hse, hgf.2.1 i (Nat.lt_of_lt_of_le hi hpf.1) hng, hpf.2 i hi]
        | err e2 σ2 =>
          rw [hcv] at h
          injection h with h1 h2
          rw [← h2]
          have hgf := (cvRun_frame ng fl).1 an v (some (.ofCls c')) σ1
          rw [hcv] at hgf
          simp only [Res.st] at hgf
          intro i hi hng
          rw [hgf.2.1 i (Nat.lt_of_lt_of_le hi hpf.1) hng, hpf.2 i hi]

/-! ### Preservation of cursor admissibility -/

/-- `setattr`-rejection is determined by the cell contents. -/
theorem unsettable_some (σ : St) (i : Oid) (ob : Obj)
    (hg : σ[i]? = some ob) :
    unsettableAt σ i =
      decide (¬ (kindTag ob = 4 ∨ kindTag ob = 5 ∨ kindTag ob = 6 ∨
        kindTag ob = 11)) := by
  unfold unsettableAt
  rw [hg]
  cases ob with
  | cls nm md bs d => cases md <;> rfl
  | _ => rfl

/-- `setattr`-rejection is determined by the kind tag. -/
theorem unsettableAt_of_kindPres {σ σ' : St} {i : Oid} (hlt : i < σ.length)
    (h : kindPres σ σ') : unsettableAt σ' i = unsettableAt σ i := by
  have hk := h i hlt
  have hg : σ[i]? = some σ[i] := List.getElem?_eq_getElem hlt
  rw [hg] at hk
  cases hgp : σ'[i]? with
  | none => rw [hgp] at hk; simp at hk
  | some ob' =>
    rw [hgp] at hk
    have hkk : kindTag ob' = kindTag σ[i] := by simpa using hk
    rw [unsettable_some σ i σ[i] hg, unsettable_some σ' i ob' hgp, hkk]

/-- Cursor admissibility survives any evolution of the heap that only
allocates, grows, and preserves kinds. -/
theorem curOK_mono {n : Nat} {σ σ' : St} {cur : Option Oid}
    (hn : n ≤ σ.length) (hl : σ.length ≤ σ'.length) (hk : kindPres σ σ')
    (hc : curOK n σ cur) : curOK n σ' cur := by
  cases cur with
  | none => exact trivial
  | some co =>
    simp only [curOK] at hc ⊢
    by_cases hco : co < σ.length
    · rcases hc with h | h | h
      · exact Or.inl h
      · exact Or.inr (Or.inl (by rw [sentAtB_of_kindPres hco hk]; exact h))
      · exact Or.inr (Or.inr (by rw [unsettableAt_of_kindPres hco hk]; exact h))
    · exact Or.inl (Nat.le_trans hn (Nat.le_of_not_lt hco))

/-! ### Frame of the Path Resolver -/

/-- Frame property of the `copy_name` loop: relative to a baseline `n`
(the heap size when `apply_mocks` started) and an admissible cursor,
the loop leaves every cell below the baseline untouched except the
`new_globals` dictionary and Sentinel Markers, and preserves every
pre-existing cell's kind. -/
theorem copyNameLoop_sframe (fl : Nat) (ng : Oid) (n : Nat) :
    ∀ (ps : List (String × String)) (copyObj cur : Option Oid) (σ : St),
    n ≤ σ.length → curOK n σ cur →
    SFrame n ng σ (copyNameLoop fl ng ps copyObj cur σ).st := by
  intro ps
  induction ps with
  | nil =>
    intro copyObj cur σ hn hcur
    simp only [copyNameLoop]
    exact sframe_of_gframe hn (gframe_refl ng σ)
  | cons pq rest ih =>
    obtain ⟨pn, pp⟩ := pq
    intro copyObj cur σ hn hcur
    simp only [copyNameLoop, alloc]
    cases hga : getAttrM cur pn (σ ++ [Obj.mockInst []]) with
    | mk fb? σ2 =>
      have hpf2 : PFrame σ σ2 := by
        have hg := getAttrM_pframe cur pn (σ ++ [Obj.mockInst []])
        rw [hga] at hg
        exact pframe_trans (pframe_alloc σ (Obj.mockInst [])) hg
      have hsf2 : SFrame n ng σ σ2 :=
        sframe_of_gframe hn (gframe_of_pframe hpf2)
      have hn2 : n ≤ σ2.length := Nat.le_trans hn hpf2.1
      dsimp only
      cases hdg : dictGetR ng pp σ2 with
      | err e σ3 =>
        have hst : σ3 = σ2 := by
          have := dictGetR_st ng pp σ2
          rw [hdg] at this
          exact this
        rw [hst]
        exact hsf2
      | ok v? σ3 =>
        have hst : σ3 = σ2 := by
          have := dictGetR_st ng pp σ2
          rw [hdg] at this
          exact this
        subst hst
        dsimp only
        generalize hnxt : v?.getD (fb?.getD (List.length σ)) = nxt
        cases hrn : readO σ3 nxt with
        | none => exact hsf2
        | some ob =>
          dsimp only
          have hng2 : ∀ (es : List (String × Oid)) (v0 : Oid),
              readO σ3 ng = some (.dict es) → lookupL es pp = some v0 →
              v0 = nxt := by
            intro es v0 hre hlv
            unfold dictGetR at hdg
            split at hdg
            · rename_i es0 hre0
              rw [hre0] at hre
              injection hre with hre1
              injection hre1 with hre2
              subst hre2
              injection hdg with hv1 hv2
              rw [hlv] at hv1
              rw [← hnxt, ← hv1]
              rfl
            · cases hdg
          have hstep : ∀ (clasR : Option TyRef) (nxt' : Oid) (σ4 : St),
              cvRun ng fl (.value pp nxt clasR) σ3 = .ok nxt' σ4 →
              GFrame ng σ3 σ4 ∧
              (σ3.length ≤ nxt' ∨ sentAtB σ4 nxt' = true ∨
                unsettableAt σ4 nxt' = true) := by
            intro clasR nxt' σ4 hcv
            have hgf := (cvRun_frame ng fl).1 pp nxt clasR σ3
            rw [hcv] at hgf
            simp only [Res.st] at hgf
            exact ⟨hgf, cvRun_value_res hcv hng2⟩
          have hstepE : ∀ (clasR : Option TyRef) (e : PyErr) (σ4 : St),
              cvRun ng fl (.value pp nxt clasR) σ3 = .err e σ4 →
              GFrame ng σ3 σ4 := by
            intro clasR e σ4 hcv
            have hgf := (cvRun_frame ng fl).1 pp nxt clasR σ3
            rw [hcv] at hgf
            simp only [Res.st] at hgf
            exact hgf
          split
          · rename_i nxt' σ4 hcv
            simp only [copyValue] at hcv
            obtain ⟨hgf, hres⟩ := hstep _ _ _ hcv
            have hsf4 : SFrame n ng σ σ4 :=
              sframe_trans hn hsf2 (sframe_of_gframe hn2 hgf)
            have hn4 : n ≤ σ4.length := Nat.le_trans hn hsf4.1
            have hcur4 : curOK n σ4 (some nxt') := by
              simp only [curOK]
              rcases hres with hfr | hx | hx
              · exact Or.inl (Nat.le_trans hn2 hfr)
              · exact Or.inr (Or.inl hx)
              · exact Or.inr (Or.inr hx)
            cases copyObj with
            | none =>
              dsimp only
              exact sframe_trans hn hsf4
                (ih (some nxt') (some nxt') σ4 hn4 hcur4)
            | some co0 =>
              dsimp only
              cases cur with
              | none => exact hsf4
              | some co =>
                dsimp only
                cases hsa : setAttrM co pn nxt' σ4 with
                | ok u σ5 =>
                  dsimp only [Res.st]
                  obtain ⟨hl5, hne5, hk5, husn⟩ := setAttrM_ok hsa
                  have hcurm : curOK n σ4 (some co) :=
                    curOK_mono hn hsf4.1 hsf4.2.2 hcur
                  have hsf5 : SFrame n ng σ4 σ5 := by
                    refine ⟨Nat.le_of_eq hl5.symm, ?_, ?_⟩
                    · intro i hi hing hsent
                      have hine : i ≠ co := by
                        intro hie
                        subst hie
                        simp only [curOK] at hcurm
                        rcases hcurm with hx | hx | hx
                        · omega
                        · simp [hx] at hsent
                        · simp [husn] at hx
                      exact hne5 i hine
                    · intro i hi
                      by_cases hic : i = co
                      · rw [hic]
                        exact hk5
                      · rw [hne5 i hic]
                  have hcur5 : curOK n σ5 (some nxt') :=
                    curOK_mono hn4 hsf5.1 hsf5.2.2 hcur4
                  exact sframe_trans hn hsf4
                    (sframe_trans hn4 hsf5
                      (ih (some co0) (some nxt') σ5
                        (Nat.le_trans hn4 hsf5.1) hcur5))
                | err e σ5 =>
                  dsimp only
                  have hse : σ5 = σ4 := setAttrM_err hsa
                  rw [hse]
                  exact hsf4
          · rename_i e σ4 hcv
            simp only [copyValue] at hcv
            have hgf := hstepE _ _ _ hcv
            exact sframe_trans hn hsf2 (sframe_of_gframe hn2 hgf)

/-! ### Frame of the Mock Applier -/

/-- Frame of the first `apply_mocks` loop: below the baseline, only
the fresh namespace and Sentinel Markers are touched. -/
theorem amLoop1_sframe (fl : Nat) (ng : Oid) (n : Nat) :
    ∀ (names : List String) (σ : St), n ≤ σ.length →
    SFrame n ng σ (amLoop1 fl ng names σ).st := by
  intro names
  induction names with
  | nil =>
    intro σ hn
    simp only [amLoop1]
    exact sframe_of_gframe hn (gframe_refl ng σ)
  | cons mn rest ih =>
    intro σ hn
    simp only [amLoop1]
    cases hcn : copyName fl mn ng σ with
    | ok v? σ' =>
      have hsf : SFrame n ng σ σ' := by
        have hx := copyNameLoop_sframe fl ng n (segPairs mn) none none σ hn
          trivial
        simp only [copyName] at hcn
        rw [hcn] at hx
        exact hx
      have hn' : n ≤ σ'.length := Nat.le_trans hn hsf.1
      cases v? with
      | none => exact hsf
      | some v =>
        dsimp only
        cases hds : dictSetR ng ((splitDots mn).headD "") v σ' with
        | ok u σ'' =>
          have hg : GFrame ng σ' σ'' := by
            have hx := @dictSetR_gframe ng ((splitDots mn).headD "") v σ'
            rw [hds] at hx
            exact hx
          exact sframe_trans hn hsf
            (sframe_trans hn' (sframe_of_gframe hn' hg)
              (ih σ'' (Nat.le_trans hn' hg.1)))
        | err e σ'' =>
          have hse : σ'' = σ' := dictSetR_err hds
          rw [hse]
          exact hsf
    | err e σ' =>
      have hx := copyNameLoop_sframe fl ng n (segPairs mn) none none σ hn
        trivial
      simp only [copyName] at hcn
      rw [hcn] at hx
      exact hx

/-- Frame of the second `apply_mocks` loop: only the fresh namespace is
mutated (every clone allocates). -/
theorem amLoop2_gframe (tn : String) (ng : Oid) :
    ∀ (names : List String) (σ : St), GFrame ng σ (amLoop2 tn ng names σ).st := by
  intro names
  induction names with
  | nil =>
    intro σ
    simp only [amLoop2]
    exact gframe_refl ng σ
  | cons rn rest ih =>
    intro σ
    simp only [amLoop2]
    by_cases he : endsWithB tn rn = true
    · rw [if_pos he]
      cases hdg : dictGetR ng rn σ with
      | ok v? σ1 =>
        have hst : σ1 = σ := by
          have := dictGetR_st ng rn σ
          rw [hdg] at this
          exact this
        subst hst
        cases v? with
        | none => exact gframe_refl ng σ1
        | some v =>
          dsimp only
          cases hrv : readO σ1 v with
          | none => exact gframe_refl ng σ1
          | some ob =>
            dsimp only
            cases hcc : copyCallable rn v ng (some (tyRefOfVal ob)) σ1 with
            | ok v' σ2 =>
              have hp : PFrame σ1 σ2 := by
                have hx := copyCallable_pframe rn v ng (some (tyRefOfVal ob)) σ1
                rw [hcc] at hx
                exact hx
              dsimp only
              cases hds : dictSetR ng rn v' σ2 with
              | ok u σ3 =>
                have hg2 : GFrame ng σ2 σ3 := by
                  have hx := @dictSetR_gframe ng rn v' σ2
                  rw [hds] at hx
                  exact hx
                exact gframe_trans (gframe_of_pframe hp)
                  (gframe_trans hg2 (ih σ3))
              | err e σ3 =>
                have hse : σ3 = σ2 := dictSetR_err hds
                rw [hse]
                exact gframe_of_pframe hp
            | err e σ2 =>
              have hp : PFrame σ1 σ2 := by
                have hx := copyCallable_pframe rn v ng (some (tyRefOfVal ob)) σ1
                rw [hcc] at hx
                exact hx
              exact gframe_of_pframe hp
      | err e σ1 =>
        have hst : σ1 = σ := by
          have := dictGetR_st ng rn σ
          rw [hdg] at this
          exact this
        rw [hst]
        exact gframe_refl ng σ
    · rw [if_neg he]
      exact ih σ

/-- Bridging step: an `SFrame` above the freshly allocated namespace is
an `AFrame` over the original heap. -/
theorem aframe_step {σ : St} {ob : Obj} {σ2 : St}
    (h : SFrame σ.length σ.length (σ ++ [ob]) σ2) : AFrame σ σ2 := by
  have hl : σ.length ≤ (σ ++ [ob]).length := by simp
  refine ⟨Nat.le_trans hl h.1, fun i hi hs => ?_,
    kindPres_trans hl (kindPres_of_pframe (pframe_alloc σ ob)) h.2.2⟩
  rw [h.2.1 i hi (Nat.ne_of_lt hi) (by
    rw [sentAtB_eq_of_getElem (List.getElem?_append_left hi)]
    exact hs)]
  exact List.getElem?_append_left hi

/-- Frame of the Mock Applier: `apply_mocks` never mutates any
pre-existing object other than Sentinel Markers, and never changes the
kind of any pre-existing cell — in particular the input namespace
dictionary and every non-Sentinel value reachable from it keep their
identity and contents. -/
theorem applyMocks_frame (fl : Nat) (mt : MockTable) (tn : String)
    (globs : Oid) (σ : St) : AFrame σ (applyMocks fl mt tn globs σ).st := by
  unfold applyMocks
  split
  · exact ⟨Nat.le_refl _, fun i _ _ => rfl, kindPres_refl σ⟩
  · rename_i inner hlk
    split
    · rename_i ge hge
      simp only [alloc]
      cases ham : amLoop1 fl σ.length (sortStrings (inner.map Prod.fst))
          (σ ++ [Obj.dict (dictUpdateL (dictUpdateL [] ge) inner)]) with
      | err e σ2 =>
        have hx := amLoop1_sframe fl σ.length σ.length
          (sortStrings (inner.map Prod.fst))
          (σ ++ [Obj.dict (dictUpdateL (dictUpdateL [] ge) inner)]) (by simp)
        rw [ham] at hx
        exact aframe_step hx
      | ok u σ2 =>
        have hx := amLoop1_sframe fl σ.length σ.length
          (sortStrings (inner.map Prod.fst))
          (σ ++ [Obj.dict (dictUpdateL (dictUpdateL [] ge) inner)]) (by simp)
        rw [ham] at hx
        simp only [Res.st] at hx
        dsimp only
        split
        · rename_i nges hnges
          cases ham2 : amLoop2 tn σ.length (nges.map Prod.fst) σ2 with
          | ok u2 σ3 =>
            have hx2 := amLoop2_gframe tn σ.length (nges.map Prod.fst) σ2
            rw [ham2] at hx2
            simp only [Res.st] at hx2
            exact aframe_step (sframe_trans (by simp) hx
              (sframe_of_gframe (Nat.le_trans (by simp) hx.1) hx2))
          | err e σ3 =>
            have hx2 := amLoop2_gframe tn σ.length (nges.map Prod.fst) σ2
            rw [ham2] at hx2
            simp only [Res.st] at hx2
            exact aframe_step (sframe_trans (by simp) hx
              (sframe_of_gframe (Nat.le_trans (by simp) hx.1) hx2))
        · exact aframe_step hx
    · exact ⟨Nat.le_refl _, fun i _ _ => rfl, kindPres_refl σ⟩

/-- Claim C1: identity isolation of `apply_mocks`.  For every original
heap, mock table, test name and namespace, every pre-existing object
that is not itself a Sentinel Marker is left byte-for-byte untouched at
its identity by `apply_mocks` — in particular every non-Sentinel object
reachable from the original namespace (whether on a mocked dotted path
or not) is the very same object afterwards, since the substituted clones
are placed in a fresh namespace, never over the originals. -/
theorem C1_identity_isolation (fl : Nat) (mt : MockTable) (tn : String)
    (globs : Oid) (σ : St) (i : Oid) (hi : i < σ.length)
    (hs : sentAtB σ i = false) :
    (applyMocks fl mt tn globs σ).st[i]? = σ[i]? :=
  (applyMocks_frame fl mt tn globs σ).2.1 i hi hs

/-- Witness for C1 at the C2 scenario heap: the module dictionary, the
original int and the original function all keep their identity and
contents across a run of `apply_mocks` that substitutes a mock. -/
theorem C1_witness :
    (0 < σC2.length ∧ sentAtB σC2 0 = false ∧
      (applyMocks 20 mtC2 "m.f" 0 σC2).st[0]? = σC2[0]?) ∧
    (2 < σC2.length ∧ sentAtB σC2 2 = false ∧
      (applyMocks 20 mtC2 "m.f" 0 σC2).st[2]? = σC2[2]?) :=
  ⟨⟨by decide, by decide,
      C1_identity_isolation 20 mtC2 "m.f" 0 σC2 0 (by decide) (by decide)⟩,
    ⟨by decide, by decide,
      C1_identity_isolation 20 mtC2 "m.f" 0 σC2 2 (by decide) (by decide)⟩⟩

/-- Claim C8: `apply_mocks` never mutates the input namespace mapping —
after the call the namespace dictionary holds exactly the same keys and
values as before — and when the test name is not a key of the flattened
mock table it returns the very input namespace with the heap untouched
(the no-op fast path). -/
theorem C8_no_input_mutation (fl : Nat) (mt : MockTable) (tn : String)
    (globs : Oid) (σ : St) (ge : List (String × Oid))
    (hg : readO σ globs = some (.dict ge)) :
    readO (applyMocks fl mt tn globs σ).st globs = some (.dict ge) ∧
    (lookupL (flattenMocks mt) tn = none →
      applyMocks fl mt tn globs σ = .ok globs σ) := by
  constructor
  · have hf := applyMocks_frame fl mt tn globs σ
    have hlt : globs < σ.length := readO_lt hg
    have hsent : sentAtB σ globs = false := by
      simp [sentAtB, show σ[globs]? = _ from hg, sentObj]
    show (applyMocks fl mt tn globs σ).st[globs]? = some (.dict ge)
    rw [hf.2.1 globs hlt hsent]
    exact hg
  · intro hnone
    unfold applyMocks
    rw [hnone]

/-- Witness for C8 at the C2 scenario heap: the input namespace
dictionary is unchanged after a substituting run, and a test name
absent from the mock table takes the no-op fast path. -/
theorem C8_witness :
    readO σC2 0 = some (.dict [("X", 1), ("f", 2)]) ∧
    readO (applyMocks 20 mtC2 "m.f" 0 σC2).st 0 =
      some (.dict [("X", 1), ("f", 2)]) ∧
    (lookupL (flattenMocks mtC2) "other" = none →
      applyMocks 20 mtC2 "other" 0 σC2 = .ok 0 σC2) :=
  ⟨rfl,
    (C8_no_input_mutation 20 mtC2 "m.f" 0 σC2 [("X", 1), ("f", 2)] rfl).1,
    (C8_no_input_mutation 20 mtC2 "other" 0 σC2 [("X", 1), ("f", 2)] rfl).2⟩

/-! ### The sort used by the cloner and the Mock Applier -/

theorem chLe_total : ∀ (a b : List Char), chLe a b = true ∨ chLe b a = true := by
  intro a
  induction a with
  | nil => intro b; exact Or.inl rfl
  | cons x xs ih =>
    intro b
    cases b with
    | nil => exact Or.inr rfl
    | cons y ys =>
      by_cases h1 : x.toNat < y.toNat
      · exact Or.inl (by simp only [chLe]; rw [if_pos h1])
      · by_cases h2 : y.toNat < x.toNat
        · exact Or.inr (by simp only [chLe]; rw [if_pos h2])
        · rcases ih ys with h | h
          · exact Or.inl (by
              simp only [chLe]
              rw [if_neg h1, if_neg h2]
              exact h)
          · exact Or.inr (by
              simp only [chLe]
              rw [if_neg h2, if_neg h1]
              exact h)

theorem chLe_trans : ∀ (a b c : List Char), chLe a b = true →
    chLe b c = true → chLe a c = true := by
  intro a
  induction a with
  | nil => intro b c _ _; rfl
  | cons x xs ih =>
    intro b c hab hbc
    cases b with
    | nil => cases hab
    | cons y ys =>
      cases c with
      | nil => cases hbc
      | cons z zs =>
        simp only [chLe] at hab hbc ⊢
        by_cases h1 : x.toNat < y.toNat
        · by_cases h2 : y.toNat < z.toNat
          · rw [if_pos (Nat.lt_trans h1 h2)]
          · rw [if_neg h2] at hbc
            by_cases h3 : z.toNat < y.toNat
            · rw [if_pos h3] at hbc
              cases hbc
            · have hyz : y.toNat = z.toNat :=
                Nat.le_antisymm (Nat.le_of_not_lt h3) (Nat.le_of_not_lt h2)
              rw [if_pos (by omega)]
        · rw [if_neg h1] at hab
          by_cases h1p : y.toNat < x.toNat
          · rw [if_pos h1p] at hab
            cases hab
          · rw [if_neg h1p] at hab
            have hxy : x.toNat = y.toNat :=
              Nat.le_antisymm (Nat.le_of_not_lt h1p) (Nat.le_of_not_lt h1)
            by_cases h2 : y.toNat < z.toNat
            · rw [if_pos (by omega)]
            · rw [if_neg h2] at hbc
              by_cases h3 : z.toNat < y.toNat
              · rw [if_pos h3] at hbc
                cases hbc
              · rw [if_neg h3] at hbc
                rw [if_neg (by omega), if_neg (by omega)]
                exact ih ys zs hab hbc

theorem strLeB_total (a b : String) : strLeB a b = true ∨ strLeB b a = true :=
  chLe_total a.data b.data

theorem strLeB_trans {a b c : String} (h1 : strLeB a b = true)
    (h2 : strLeB b c = true) : strLeB a c = true :=
  chLe_trans a.data b.data c.data h1 h2

theorem pairwise_orderedInsert (a : String) :
    ∀ (l : List String),
    List.Pairwise (fun x y => strLeB x y = true) l →
    List.Pairwise (fun x y => strLeB x y = true)
      (List.orderedInsert (fun x y => strLeB x y = true) a l) := by
  intro l
  induction l with
  | nil =>
    intro _
    simp [List.orderedInsert]
  | cons b t ih =>
    intro hp
    obtain ⟨hb, hpt⟩ := List.pairwise_cons.mp hp
    rw [List.orderedInsert]
    by_cases hab : strLeB a b = true
    · rw [if_pos hab]
      refine List.Pairwise.cons ?_ hp
      intro x hx
      rcases List.mem_cons.mp hx with hxb | hxt
      · rw [hxb]
        exact hab
      · exact strLeB_trans hab (hb x hxt)
    · rw [if_neg hab]
      have hba : strLeB b a = true := (strLeB_total a b).resolve_left hab
      refine List.Pairwise.cons ?_ (ih hpt)
      intro x hx
      rcases List.mem_cons.mp ((List.perm_orderedInsert _ a t).mem_iff.mp hx)
        with hxa | hxt
      · rw [hxa]
        exact hba
      · exact hb x hxt

/-- The iteration list of `copy_class` and `apply_mocks` is sorted:
every element is `≤` (byte-lexicographically) every later one. -/
theorem sortStrings_pairwise (l : List String) :
    List.Pairwise (fun x y => strLeB x y = true) (sortStrings l) := by
  unfold sortStrings
  induction l with
  | nil => exact List.Pairwise.nil
  | cons a t ih =>
    rw [List.insertionSort]
    exact pairwise_orderedInsert a _ ih

/-- The iteration list is a permutation of the attribute names. -/
theorem sortStrings_perm (l : List String) : l.Perm (sortStrings l) :=
  (List.perm_insertionSort _ l).symm

/-- Claim C7: `copy_class` iterates the attribute names of the new class
in sorted (byte-lexicographic, hence alphabetical) order — the iteration
list is a sorted permutation of the class-dictionary keys, and the class
step runs the attribute loop on exactly that list over the heap in which
the clone was registered; each loop iteration re-clones the attribute's
value through the dispatcher with the new class as clone context and
reassigns it onto the new class; and if one iteration raises a
`KeyError`, `AttributeError` or `TypeError`, the loop swallows the error
and continues with the remaining attributes, the failed attribute (and
every cell other than the shared namespace) keeping its value from
before the iteration, while any other exception propagates. -/
theorem C7_sorted_best_effort (ng : Oid) (fl : Nat) (c : Oid) (cn : String)
    (bases : List Oid) (d : List (String × Oid)) (σk : St) (c' : Oid)
    (an : String) (rest : List String) (σ σe : St) (e : PyErr) :
    ((d.map Prod.fst).Perm (sortStrings (d.map Prod.fst)) ∧
      List.Pairwise (fun x y => strLeB x y = true)
        (sortStrings (d.map Prod.fst))) ∧
    (readO σk c = some (.cls cn false bases d) →
      (∀ u σ2 u3 σ3,
        dictSetR ng cn σk.length (σk ++ [.cls cn true bases d]) = .ok u σ2 →
        cvRun ng fl (.attrs σk.length (sortStrings (d.map Prod.fst))) σ2 =
          .ok u3 σ3 →
        cvRun ng (fl + 1) (.klass c) σk = .ok σk.length σ3) ∧
      (∀ u σ2 e3 σ3,
        dictSetR ng cn σk.length (σk ++ [.cls cn true bases d]) = .ok u σ2 →
        cvRun ng fl (.attrs σk.length (sortStrings (d.map Prod.fst))) σ2 =
          .err e3 σ3 →
        cvRun ng (fl + 1) (.klass c) σk = .err e3 σ3)) ∧
    (∀ v σ1 v2 σ2 u σ3,
      getAttrM (some c') an σ = (some v, σ1) →
      cvRun ng fl (.value an v (some (.ofCls c'))) σ1 = .ok v2 σ2 →
      setAttrM c' an v2 σ2 = .ok u σ3 →
      cvRun ng (fl + 1) (.astep c' an) σ = .ok 0 σ3) ∧
    (cvRun ng fl (.astep c' an) σ = .err e σe →
      (catchable e = true →
        cvRun ng (fl + 1) (.attrs c' (an :: rest)) σ =
          cvRun ng fl (.attrs c' rest) σe) ∧
      (catchable e = false →
        cvRun ng (fl + 1) (.attrs c' (an :: rest)) σ = .err e σe) ∧
      ∀ i, i < σ.length → i ≠ ng → σe[i]? = σ[i]?) := by
  refine ⟨⟨sortStrings_perm _, sortStrings_pairwise _⟩, ?_, ?_, ?_⟩
  · intro hk
    constructor
    · intro u σ2 u3 σ3 hds hat
      simp only [cvRun, hk]
      rw [if_neg (by simp)]
      simp only [alloc]
      rw [hds]
      dsimp only
      rw [hat]
    · intro u σ2 e3 σ3 hds hat
      simp only [cvRun, hk]
      rw [if_neg (by simp)]
      simp only [alloc]
      rw [hds]
      dsimp only
      rw [hat]
  · intro v σ1 v2 σ2 u σ3 hga hv hsa
    simp only [cvRun]
    rw [hga]
    dsimp only
    rw [hv]
    dsimp only
    rw [hsa]
  · intro hstep
    refine ⟨?_, ?_, cvRun_astep_err hstep⟩
    · intro hc
      simp only [cvRun]
      rw [hstep]
      dsimp only
      rw [if_pos hc]
    · intro hc
      simp only [cvRun]
      rw [hstep]
      dsimp only
      rw [if_neg (by simp [hc])]

/-- Witness for C7 at a concrete heap: re-cloning attribute `y` of the
class clone at identity 1 raises a catchable `KeyError` (the empty
namespace does not bind `y`), and the loop swallows it and continues;
the iteration list of a two-attribute dictionary is its sorted
permutation. -/
theorem C7_witness :
    cvRun 0 5 (CvIn.astep 1 "y") σ7 = .err .keyErr σ7 ∧
    catchable .keyErr = true ∧
    cvRun 0 6 (CvIn.attrs 1 ["y"]) σ7 = cvRun 0 5 (CvIn.attrs 1 []) σ7 ∧
    ((["y", "x"] : List String).Perm (sortStrings ["y", "x"]) ∧
      List.Pairwise (fun x y => strLeB x y = true)
        (sortStrings ["y", "x"])) :=
  ⟨rfl, rfl,
    ((C7_sorted_best_effort 0 5 0 "C" [] [("y", 2)] σ7 1 "y" [] σ7 σ7
        PyErr.keyErr).2.2.2 rfl).1 rfl,
    (C7_sorted_best_effort 0 5 0 "C" [] [("y", 2), ("x", 3)] σ7 1 "y" [] σ7
        σ7 PyErr.keyErr).1⟩

end MDoc
